import Mathlib

/-!
# go-ycsb client: worker quota, throttle, distribution pacer and run loop

A shallow embedding of `pkg/client/client.go`.

Conventions of the embedding

* Go `int`/`int64` values are `Int`; arithmetic that can leave the 64-bit range is
  wrapped with `wrap64` (two's complement), division and remainder truncate toward zero.
* Go `float64` values are `GoFloat`: a finite value is a rational, next to `+Inf`, `-Inf`
  and `NaN`. Every arithmetic operation and every conversion from an integer rounds its
  exact result to binary64 with `round64` (53-bit significand, round to nearest, ties
  to even, gradual underflow, overflow to infinity); zero carries no sign.
  A conversion to `int64` truncates toward zero; a value that does not fit, an infinity
  or a NaN converts to `-2^63` (the amd64 result).
* A process exit or run-time panic is an explicit `Fault`.
* Clock readings are nanosecond counts given as inputs; the random source is a raw draw
  given as input, reduced modulo the bound as `rand.Int63n` does.
* The expression of the normal density (square root, power, pi, e) is a parameter `pdf`
  of the pacer; every theorem holds for every `pdf`.
-/

namespace GoYcsb

/-! ## Machine integers -/

/-- Two's complement wrap of an integer into the int64 range. -/
def wrap64 (x : Int) : Int := (x + 2 ^ 63) % 2 ^ 64 - 2 ^ 63

/-- The int64 range. -/
def InRange64 (x : Int) : Prop := -(2 ^ 63) ≤ x ∧ x < 2 ^ 63

instance (x : Int) : Decidable (InRange64 x) := by
  unfold InRange64; exact inferInstance

/-- Ways a call can end without returning. -/
inductive Fault where
  | exit (code : Int)
  | panic
  deriving DecidableEq, Repr

/-- Go integer division on int64: truncated, panics on a zero divisor; the one
overflowing quotient `-2^63 / -1` yields the dividend. -/
def goDiv64 (a b : Int) : Except Fault Int :=
  if b = 0 then .error .panic
  else if a = -(2 ^ 63) ∧ b = -1 then .ok a
  else .ok (Int.tdiv a b)

/-- Go integer remainder: sign of the dividend, panics on a zero divisor. -/
def goMod (a b : Int) : Except Fault Int :=
  if b = 0 then .error .panic else .ok (Int.tmod a b)

/-! ## float64 -/

/-- A float64 value: a finite value (held as a rational), an infinity with its sign, or
NaN. -/
inductive GoFloat where
  | fin (q : ℚ)
  | inf (neg : Bool)
  | nan
  deriving DecidableEq

namespace GoFloat

/-- Rounding of a rational to the nearest integer, a tie going to the even one. -/
def roundHalfEven (q : ℚ) : Int :=
  if q - ⌊q⌋ < 1 / 2 then ⌊q⌋
  else if 1 / 2 < q - ⌊q⌋ then ⌊q⌋ + 1
  else if ⌊q⌋ % 2 = 0 then ⌊q⌋ else ⌊q⌋ + 1

/-- The exponent of the unit in the last place of the binary64 format at `q`: 52 below
the binary exponent of `q`, and `-1074` in the subnormal range. -/
def ulpExp (q : ℚ) : Int := max (Int.log 2 |q|) (-1022) - 52

/-- Rounding of an exact result to binary64: to the nearest multiple of the unit in the
last place, ties to even; a result of magnitude `2^1024` or more is an infinity. -/
def round64 (q : ℚ) : GoFloat :=
  let r : ℚ := (roundHalfEven (q / 2 ^ ulpExp q) : ℚ) * 2 ^ ulpExp q
  if 2 ^ 1024 ≤ |r| then inf (decide (q < 0)) else fin r

/-- Conversion `float64(n)` of an integer. -/
def ofInt (n : Int) : GoFloat := round64 n

/-- Float addition. -/
def add : GoFloat → GoFloat → GoFloat
  | fin a, fin b => round64 (a + b)
  | fin _, inf s => inf s
  | inf s, fin _ => inf s
  | inf s, inf t => if s = t then inf s else nan
  | _, _ => nan

/-- Float negation. -/
def neg : GoFloat → GoFloat
  | fin a => fin (-a)
  | inf s => inf (!s)
  | nan => nan

/-- Float subtraction. -/
def sub (x y : GoFloat) : GoFloat := add x (neg y)

/-- Float multiplication. -/
def mul : GoFloat → GoFloat → GoFloat
  | fin a, fin b => round64 (a * b)
  | fin a, inf s => if a = 0 then nan else inf (s != decide (a < 0))
  | inf s, fin b => if b = 0 then nan else inf (s != decide (b < 0))
  | inf s, inf t => inf (s != t)
  | _, _ => nan

/-- Float division. -/
def div : GoFloat → GoFloat → GoFloat
  | fin a, fin b =>
      if b = 0 then (if a = 0 then nan else inf (decide (a < 0))) else round64 (a / b)
  | fin _, inf _ => fin 0
  | inf s, fin b => inf (s != decide (b < 0))
  | inf _, inf _ => nan
  | _, _ => nan

/-- Float comparison `x > y` (false when either side is NaN). -/
def gt : GoFloat → GoFloat → Bool
  | fin a, fin b => decide (b < a)
  | fin _, inf s => s
  | inf s, fin _ => !s
  | inf s, inf t => !s && t
  | _, _ => false

/-- Float comparison `x <= y` (false when either side is NaN). -/
def le : GoFloat → GoFloat → Bool
  | nan, _ => false
  | _, nan => false
  | x, y => !gt x y

/-- Float comparison `x == y` (false when either side is NaN). -/
def eq : GoFloat → GoFloat → Bool
  | fin a, fin b => decide (a = b)
  | inf s, inf t => s == t
  | _, _ => false

/-- Truncation of a rational toward zero. -/
def truncQ (q : ℚ) : Int := if 0 ≤ q then ⌊q⌋ else ⌈q⌉

/-- Conversion `int64(x)`: truncation toward zero; `-2^63` when the value does not fit. -/
def toInt64 : GoFloat → Int
  | fin q => if InRange64 (truncQ q) then truncQ q else -(2 ^ 63)
  | _ => -(2 ^ 63)

end GoFloat

/-! ## Configuration and worker -/

/-- The property values the client reads, each as its getter returns it (defaults of
package `prop` applied). `insertCount` is `none` when the key is absent. -/
structure Properties where
  doTransactions : Bool
  batchSize : Int
  expectedValue : GoFloat
  standardDeviation : GoFloat
  timeDelay : Int
  timePeriod : Int
  noiseRatio : GoFloat
  operationCount : Int
  insertCount : Option Int
  recordCount : Int
  target : Int
  timeDistribution : String
  normalDataInTime : Bool
  silence : Bool

/-- The worker record (the workload and database handles are opaque and left out). -/
structure worker where
  p : Properties
  doTransactions : Bool
  doBatch : Bool
  batchSize : Int
  opCount : Int
  targetOpsPerMs : GoFloat
  threadID : Int
  targetOpsTickNs : Int
  opsDone : Int
  mean : GoFloat
  std : GoFloat
  delay : Int
  period : Int
  noiseRatio : GoFloat

/-- The total operation count `newWorker` selects (lines 72-81). -/
def totalOpCount (p : Properties) : Int :=
  if p.doTransactions then p.operationCount
  else match p.insertCount with
    | some n => n
    | none => p.recordCount

/-- The per-millisecond target of one thread (lines 96-100); `-1` when no target is set. -/
def targetPerThreadPerms (p : Properties) (threadCount : Int) : GoFloat :=
  if 0 < p.target then
    GoFloat.div (GoFloat.div (GoFloat.ofInt p.target) (GoFloat.ofInt threadCount))
      (GoFloat.fin 1000)
  else GoFloat.fin (-1)

/-- Embedding of `newWorker` (lines 54-108). -/
def newWorker (p : Properties) (threadID threadCount : Int) : Except Fault worker :=
  let total := totalOpCount p
  if total < threadCount then .error (.exit (-1))
  else
    match goDiv64 total threadCount with
    | .error f => .error f
    | .ok opCount =>
      let perMs := targetPerThreadPerms p threadCount
      let paced := GoFloat.gt perMs (GoFloat.fin 0)
      .ok {
        p := p
        doTransactions := p.doTransactions
        doBatch := decide (1 < p.batchSize)
        batchSize := p.batchSize
        opCount := opCount
        targetOpsPerMs := if paced then perMs else GoFloat.fin 0
        threadID := threadID
        targetOpsTickNs :=
          if paced then GoFloat.toInt64 (GoFloat.div (GoFloat.fin 1000000) perMs) else 0
        opsDone := 0
        mean := p.expectedValue
        std := p.standardDeviation
        delay := p.timeDelay
        period := p.timePeriod
        noiseRatio := p.noiseRatio }

/-- The quota of the worker `newWorker` builds, `0` when it builds none. -/
def quotaOf (r : Except Fault worker) : Int :=
  match r with
  | .ok w => w.opCount
  | .error _ => 0

/-! ## Rate throttle -/

/-- The duration `t.Sub(u)` between two clock readings, saturated to the int64 range as
`time.Time.Sub` does. -/
def timeSub (t u : Int) : Int := max (-(2 ^ 63)) (min (2 ^ 63 - 1) (t - u))

/-- Embedding of `worker.throttle` (lines 110-124) at clock reading `now`: `none` when it
returns without waiting, `some d` when it blocks for `d` nanoseconds (or until the
context is cancelled). -/
def throttle (w : worker) (startTime now : Int) : Option Int :=
  if GoFloat.le w.targetOpsPerMs (GoFloat.fin 0) then none
  else
    let d := wrap64 (w.opsDone * w.targetOpsTickNs)
    let d := timeSub (startTime + d) now
    if d < 0 then none else some d

/-- The time `throttle` asks to wait: nothing when it returns early. -/
def throttleWait (w : worker) (startTime now : Int) : Int :=
  (throttle w startTime now).getD 0

/-! ## Distribution pacer -/

/-- The process-wide noise memo: the variables `oldtime` and `noiseRange` (lines 174-175). -/
structure NoiseState where
  oldtime : Int
  noiseRange : GoFloat
  deriving DecidableEq

/-- The initial values of `oldtime` and `noiseRange`. -/
def initialNoise : NoiseState := ⟨-1, GoFloat.fin 0⟩

/-- The call `rand.Int63n(n)` on the raw draw `rnd`: panics unless `n > 0`. -/
def int63n (rnd : Nat) (n : Int) : Except Fault Int :=
  if n ≤ 0 then .error .panic else .ok ((rnd : Int) % n)

/-- Embedding of `getnoiseRange` (lines 177-191): the noise memo after the call. -/
def getnoiseRange (rnd : Nat) (newtime : Int) (ratio : GoFloat) (g : NoiseState) :
    Except Fault NoiseState :=
  if newtime ≠ g.oldtime then
    if GoFloat.eq ratio (GoFloat.fin 1) then
      match int63n rnd 5 with
      | .error f => .error f
      | .ok r =>
        .ok ⟨newtime, GoFloat.div (GoFloat.ofInt (wrap64 (r - 1))) (GoFloat.fin 2)⟩
    else if GoFloat.eq ratio (GoFloat.fin 0) then
      .ok ⟨newtime, GoFloat.fin 0⟩
    else
      match int63n rnd (GoFloat.toInt64 (GoFloat.mul (GoFloat.fin 20000) ratio)) with
      | .error f => .error f
      | .ok r =>
        let off := GoFloat.toInt64
          (GoFloat.mul (GoFloat.mul (GoFloat.fin 10000) ratio) (GoFloat.sub (GoFloat.fin 1) ratio))
        .ok ⟨newtime,
          GoFloat.div (GoFloat.ofInt (wrap64 (r - off)))
            (GoFloat.mul (GoFloat.fin 10000)
              (GoFloat.sub (GoFloat.fin 1) (GoFloat.mul ratio ratio)))⟩
  else .ok g

/-- The ceiling `3 * math.Pow(10.0, 10)` of the normal shapes. -/
def delayCeiling : GoFloat := GoFloat.mul (GoFloat.fin 3) (GoFloat.fin (10 ^ 10))

/-- The guard `if tmp > 3 * math.Pow(10.0,10) { tmp = 3 * math.Pow(10.0,10) }`. -/
def clampDelay (tmp : GoFloat) : GoFloat :=
  if GoFloat.gt tmp delayCeiling then delayCeiling else tmp

/-- The step multiplier `3 - int(0.5 + float64(timeNow * 3.0 / w.period))` (lines 157,
162): the product and the quotient are integer operations, the constant `3.0` being
converted to `int`. -/
def stepMultiplier (timeNow period : Int) : Except Fault Int :=
  match goDiv64 (wrap64 (timeNow * 3)) period with
  | .error f => .error f
  | .ok k =>
    .ok (wrap64 (3 - GoFloat.toInt64 (GoFloat.add (GoFloat.fin (1 / 2)) (GoFloat.ofInt k))))

/-- How a call of `ctlPeriod` ends: it slept `d` nanoseconds and returned nil (leaving
the noise memo `g`), it returned the distribution-name error, or it panicked. -/
inductive CtlOutcome where
  | slept (d : Int) (g : NoiseState)
  | failed
  | panicked
  deriving DecidableEq

/-- The duration passed to `time.Sleep`, when there is one. -/
def CtlOutcome.sleptFor : CtlOutcome → Option Int
  | .slept d _ => some d
  | _ => none

/-- Embedding of `worker.ctlPeriod` (lines 126-172). `elapsedMin` is the value of
`int(time.Now().Sub(loadStartTime).Minutes())`, `rnd` the raw random draw, `g` the noise
memo before the call, and `pdf std mean timeNow` the value `v` of the density expression
of lines 131, 139 and 147. -/
def ctlPeriod (pdf : GoFloat → GoFloat → Int → GoFloat) (w : worker) (elapsedMin : Int)
    (rnd : Nat) (g : NoiseState) : CtlOutcome :=
  let distributionName := w.p.timeDistribution
  if distributionName = "normal" then
    match goMod elapsedMin w.period with
    | .error _ => .panicked
    | .ok timeNow =>
      let v := pdf w.std w.mean timeNow
      let tmp := GoFloat.mul (GoFloat.div (GoFloat.fin 1) v) (GoFloat.ofInt w.delay)
      let tmp := clampDelay tmp
      .slept (GoFloat.toInt64 tmp) g
  else if distributionName = "reverse_normal" then
    match goMod elapsedMin w.period with
    | .error _ => .panicked
    | .ok timeNow =>
      let v := pdf w.std w.mean timeNow
      let tmp := GoFloat.mul v (GoFloat.ofInt w.delay)
      let tmp := clampDelay tmp
      .slept (GoFloat.toInt64 tmp) g
  else if distributionName = "noise_normal" then
    match goMod elapsedMin w.period with
    | .error _ => .panicked
    | .ok timeNow =>
      let v := pdf w.std w.mean timeNow
      let tmp := GoFloat.mul (GoFloat.div (GoFloat.fin 1) v) (GoFloat.ofInt w.delay)
      let tmp := clampDelay tmp
      match getnoiseRange rnd timeNow w.noiseRatio g with
      | .error _ => .panicked
      | .ok g1 =>
        let noise := GoFloat.mul tmp g1.noiseRange
        .slept (GoFloat.toInt64 (GoFloat.add tmp noise)) g1
  else if distributionName = "step" then
    match goMod elapsedMin w.period with
    | .error _ => .panicked
    | .ok timeNow =>
      match stepMultiplier timeNow w.period with
      | .error _ => .panicked
      | .ok v =>
        let tmp := wrap64 (v * w.delay)
        .slept tmp g
  else if distributionName = "noise_step" then
    match goMod elapsedMin w.period with
    | .error _ => .panicked
    | .ok timeNow =>
      match stepMultiplier timeNow w.period with
      | .error _ => .panicked
      | .ok v =>
        let tmp := GoFloat.mul (GoFloat.ofInt v) (GoFloat.ofInt w.delay)
        match getnoiseRange rnd timeNow w.noiseRatio g with
        | .error _ => .panicked
        | .ok g1 =>
          let noise := GoFloat.mul tmp g1.noiseRange
          .slept (GoFloat.toInt64 (GoFloat.add tmp noise)) g1
  else .failed

/-- The worker with its `timedistribution` property set to `name`. -/
def withDistribution (w : worker) (name : String) : worker :=
  { w with p := { w.p with timeDistribution := name } }

/-! ## Run loop -/

/-- What the loop of `worker.run` observes from outside, per iteration `i` (counted from
0): clock readings, the random draw, the answer of `measurement.IsWarmUpFinished()` and
whether `ctx.Done()` is signalled at the check that ends the iteration. -/
structure RunEnv where
  pdf : GoFloat → GoFloat → Int → GoFloat
  startTime : Int
  now : Nat → Int
  elapsedMin : Nat → Int
  rnd : Nat → Nat
  warmUpFinished : Nat → Bool
  cancelled : Nat → Bool

/-- The state of a running worker: the record (with `opsDone`), the noise memo, and three
observation counters: `iters`, the workload calls made, `issued`, the operations handed
to the workload (a batch counts `batchSize`), and `throttled`, the total time asked of
`throttle`. -/
structure RunState where
  w : worker
  noise : NoiseState
  iters : Nat
  issued : Int
  throttled : Int

/-- How the loop ends. -/
inductive RunResult where
  | returned (s : RunState)
  | panicked

/-- The loop guard `w.opCount == 0 || w.opsDone < w.opCount` (line 201). -/
def loopGuard (w : worker) : Bool :=
  decide (w.opCount = 0) || decide (w.opsDone < w.opCount)

/-- Embedding of the `for` loop of `worker.run` (lines 201-242); each unit of fuel pays
for one evaluation of the loop guard, `none` means the fuel ran out. -/
def runLoop (env : RunEnv) : Nat → RunState → Option RunResult
  | 0, _ => none
  | fuel + 1, s =>
    if loopGuard s.w then
      let opsCount : Int := if s.w.doBatch then s.w.batchSize else 1
      let i := s.iters
      let s1 : RunState := { s with iters := i + 1, issued := s.issued + opsCount }
      let paced : CtlOutcome :=
        if s.w.p.normalDataInTime then
          ctlPeriod env.pdf s.w (env.elapsedMin i) (env.rnd i) s.noise
        else .slept 0 s.noise
      match paced with
      | .panicked => some .panicked
      | .failed => some (.returned s1)
      | .slept _ g =>
        let s2 : RunState := { s1 with noise := g }
        let s3 : RunState :=
          if env.warmUpFinished i then
            let w1 : worker := { s2.w with opsDone := wrap64 (s2.w.opsDone + opsCount) }
            { s2 with w := w1,
                      throttled := s2.throttled + throttleWait w1 env.startTime (env.now i) }
          else s2
        if env.cancelled i then some (.returned s3)
        else runLoop env fuel s3
    else some (.returned s)

/-- The state after one completed iteration of the loop from `s`, the pacer having left
the noise memo `g`: the assignments of lines 203-235 that the loop carries over. -/
def afterIteration (env : RunEnv) (s : RunState) (g : NoiseState) : RunState :=
  let opsCount : Int := if s.w.doBatch then s.w.batchSize else 1
  let s2 : RunState :=
    { s with iters := s.iters + 1, issued := s.issued + opsCount, noise := g }
  if env.warmUpFinished s.iters then
    let w1 : worker := { s2.w with opsDone := wrap64 (s2.w.opsDone + opsCount) }
    { s2 with w := w1,
              throttled := s2.throttled + throttleWait w1 env.startTime (env.now s.iters) }
  else s2

/-- Embedding of `worker.run` (lines 193-243): the initial jitter `rand.Int63n` of a slow
target, then the loop. -/
def run (env : RunEnv) (rnd0 : Nat) (fuel : Nat) (w : worker) (g : NoiseState) :
    Option RunResult :=
  let jitter : Except Fault Int :=
    if GoFloat.gt w.targetOpsPerMs (GoFloat.fin 0) && GoFloat.le w.targetOpsPerMs (GoFloat.fin 1)
    then int63n rnd0 w.targetOpsTickNs else .ok 0
  match jitter with
  | .error _ => some .panicked
  | .ok _ => runLoop env fuel ⟨w, g, 0, 0, 0⟩

/-- The number of `true` answers among the `m` answers `f i, ..., f (i + m - 1)`. -/
def finishedCount (f : Nat → Bool) (i : Nat) : Nat → Nat
  | 0 => 0
  | m + 1 => (if f i then 1 else 0) + finishedCount f (i + 1) m

/-! ## Sample configurations -/

/-- A transaction configuration of one thread with quota `count`, used for the concrete
evaluations below. -/
def sampleProps (name : String) (gate : Bool) (count batch delay period : Int)
    (ratio : GoFloat) : Properties :=
  { doTransactions := true, batchSize := batch, expectedValue := GoFloat.fin 0,
    standardDeviation := GoFloat.fin 1, timeDelay := delay, timePeriod := period,
    noiseRatio := ratio, operationCount := count, insertCount := none, recordCount := 0,
    target := 0, timeDistribution := name, normalDataInTime := gate, silence := false }

/-- The worker `newWorker` builds from `sampleProps` for one thread. -/
def sampleWorker (name : String) (gate : Bool) (count batch delay period : Int)
    (ratio : GoFloat) : worker :=
  { p := sampleProps name gate count batch delay period ratio,
    doTransactions := true, doBatch := decide (1 < batch), batchSize := batch,
    opCount := count, targetOpsPerMs := GoFloat.fin 0, threadID := 0,
    targetOpsTickNs := 0, opsDone := 0, mean := GoFloat.fin 0, std := GoFloat.fin 1,
    delay := delay, period := period, noiseRatio := ratio }

/-- An environment in which warm-up is over, nothing is cancelled and the clock stands
still. -/
def quietEnv : RunEnv :=
  { pdf := fun _ _ _ => GoFloat.fin 1, startTime := 0, now := fun _ => 0,
    elapsedMin := fun _ => 0, rnd := fun _ => 0, warmUpFinished := fun _ => true,
    cancelled := fun _ => false }

/-! ## Theorems -/

/-! ### binary64 rounding -/

theorem roundHalfEven_intCast (z : Int) : GoFloat.roundHalfEven (z : ℚ) = z := by
  simp [GoFloat.roundHalfEven]

theorem roundHalfEven_sub_le (q : ℚ) : |(GoFloat.roundHalfEven q : ℚ) - q| ≤ 1 / 2 := by
  have h1 := Int.floor_le q
  have h2 := Int.lt_floor_add_one q
  unfold GoFloat.roundHalfEven
  rw [abs_le]
  split_ifs with ha hb hc <;> push_cast <;> constructor <;> linarith

theorem log2_bounds {q : ℚ} (hq : q ≠ 0) :
    (2 : ℚ) ^ Int.log 2 |q| ≤ |q| ∧ |q| < (2 : ℚ) ^ (Int.log 2 |q| + 1) := by
  have hpos : 0 < |q| := abs_pos.mpr hq
  have h1 := Int.zpow_log_le_self (b := 2) (by norm_num) hpos
  have h2 := Int.lt_zpow_succ_log_self (b := 2) (by norm_num) |q|
  exact ⟨by exact_mod_cast h1, by exact_mod_cast h2⟩

theorem ulpExp_ge (q : ℚ) : -1074 ≤ GoFloat.ulpExp q := by
  unfold GoFloat.ulpExp
  have := le_max_right (Int.log 2 |q|) (-1022)
  omega

theorem round64_zero : GoFloat.round64 0 = GoFloat.fin 0 := by
  simp [GoFloat.round64, GoFloat.roundHalfEven]


theorem two_zpow_pos (k : Int) : (0 : ℚ) < 2 ^ k := zpow_pos (by norm_num) k

/-- A value `n * 2^j` with a significand of at most 53 bits and an exponent in range is
a binary64 value: rounding leaves it unchanged. -/
theorem round64_dyadic (n j : Int) (hn : |n| < 2 ^ 53) (hj : -1074 ≤ j)
    (hbig : |(n : ℚ) * 2 ^ j| < 2 ^ 1024) :
    GoFloat.round64 ((n : ℚ) * 2 ^ j) = GoFloat.fin ((n : ℚ) * 2 ^ j) := by
  by_cases hn0 : n = 0
  · subst hn0
    simp [round64_zero]
  have hq : (n : ℚ) * 2 ^ j ≠ 0 :=
    mul_ne_zero (by exact_mod_cast hn0) (ne_of_gt (two_zpow_pos j))
  obtain ⟨hL1, _⟩ := log2_bounds hq
  have habs : |(n : ℚ) * 2 ^ j| < 2 ^ (53 + j) := by
    rw [abs_mul, abs_of_pos (two_zpow_pos j), zpow_add₀ (by norm_num : (2 : ℚ) ≠ 0)]
    have h53 : |(n : ℚ)| < 2 ^ (53 : Int) := by
      have : ((|n| : Int) : ℚ) < ((2 ^ 53 : Int) : ℚ) := by exact_mod_cast hn
      push_cast at this
      exact_mod_cast this
    exact mul_lt_mul_of_pos_right h53 (two_zpow_pos j)
  have hLlt : Int.log 2 |(n : ℚ) * 2 ^ j| < 53 + j := by
    have := lt_of_le_of_lt hL1 habs
    exact (zpow_lt_zpow_iff_right₀ (by norm_num : (1 : ℚ) < 2)).mp this
  have he : GoFloat.ulpExp ((n : ℚ) * 2 ^ j) ≤ j := by
    unfold GoFloat.ulpExp
    rcases max_cases (Int.log 2 |(n : ℚ) * 2 ^ j|) (-1022) with ⟨h, _⟩ | ⟨h, _⟩ <;> omega
  obtain ⟨k, hk⟩ : ∃ k : Nat, (k : Int) = j - GoFloat.ulpExp ((n : ℚ) * 2 ^ j) :=
    ⟨(j - GoFloat.ulpExp ((n : ℚ) * 2 ^ j)).toNat, Int.toNat_of_nonneg (by omega)⟩
  have hdiv : (n : ℚ) * 2 ^ j / 2 ^ GoFloat.ulpExp ((n : ℚ) * 2 ^ j) = ((n * 2 ^ k : Int) : ℚ) := by
    rw [mul_div_assoc, ← zpow_sub₀ (by norm_num : (2 : ℚ) ≠ 0), ← hk, zpow_natCast]
    push_cast
    rfl
  have hr : (GoFloat.roundHalfEven ((n : ℚ) * 2 ^ j / 2 ^ GoFloat.ulpExp ((n : ℚ) * 2 ^ j)) : ℚ)
      * 2 ^ GoFloat.ulpExp ((n : ℚ) * 2 ^ j) = (n : ℚ) * 2 ^ j := by
    rw [hdiv, roundHalfEven_intCast, ← hdiv]
    exact div_mul_cancel₀ _ (ne_of_gt (two_zpow_pos _))
  simp only [GoFloat.round64, hr, if_neg (not_le.mpr hbig)]

theorem round64_intCast (n : Int) (hn : |n| < 2 ^ 53) : GoFloat.round64 (n : ℚ) = GoFloat.fin (n : ℚ) := by
  have hb : |(n : ℚ) * 2 ^ (0 : Int)| < 2 ^ 1024 := by
    rw [zpow_zero, mul_one]
    have h53 : ((|n| : Int) : ℚ) < ((2 ^ 53 : Int) : ℚ) := by exact_mod_cast hn
    push_cast at h53
    calc |(n : ℚ)| < 2 ^ 53 := h53
      _ ≤ 2 ^ 1024 := pow_le_pow_right₀ (by norm_num) (by norm_num)
  have := round64_dyadic n 0 hn (by norm_num) hb
  simpa using this


/-- The rounded significand times the unit in the last place is within half a unit. -/
theorem round64_candidate_err (q : ℚ) :
    |(GoFloat.roundHalfEven (q / 2 ^ GoFloat.ulpExp q) : ℚ) * 2 ^ GoFloat.ulpExp q - q| ≤ 2 ^ GoFloat.ulpExp q / 2 := by
  have hp := two_zpow_pos (GoFloat.ulpExp q)
  have h := roundHalfEven_sub_le (q / 2 ^ GoFloat.ulpExp q)
  have e : (GoFloat.roundHalfEven (q / 2 ^ GoFloat.ulpExp q) : ℚ) * 2 ^ GoFloat.ulpExp q - q
      = ((GoFloat.roundHalfEven (q / 2 ^ GoFloat.ulpExp q) : ℚ) - q / 2 ^ GoFloat.ulpExp q) * 2 ^ GoFloat.ulpExp q := by
    field_simp
  rw [e, abs_mul, abs_of_pos hp]
  calc |(GoFloat.roundHalfEven (q / 2 ^ GoFloat.ulpExp q) : ℚ) - q / 2 ^ GoFloat.ulpExp q| * 2 ^ GoFloat.ulpExp q
      ≤ 1 / 2 * 2 ^ GoFloat.ulpExp q := mul_le_mul_of_nonneg_right h hp.le
    _ = 2 ^ GoFloat.ulpExp q / 2 := by ring

/-- In the normal range rounding to binary64 has relative error at most `2^-53`. -/
theorem round64_rel (q : ℚ) (hlo : (2 : ℚ) ^ (-1022 : Int) ≤ |q|)
    (hhi : |q| < 2 ^ 1023) :
    ∃ r, GoFloat.round64 q = GoFloat.fin r ∧ |r - q| ≤ |q| * 2 ^ (-53 : Int) := by
  have hpos : 0 < |q| := lt_of_lt_of_le (two_zpow_pos _) hlo
  have hq : q ≠ 0 := abs_pos.mp hpos
  obtain ⟨hL1, _⟩ := log2_bounds hq
  have hL : -1022 ≤ Int.log 2 |q| :=
    (Int.zpow_le_iff_le_log (b := 2) (by norm_num) hpos).mp (by exact_mod_cast hlo)
  have he : GoFloat.ulpExp q = Int.log 2 |q| - 52 := by
    unfold GoFloat.ulpExp; rw [max_eq_left hL]
  have herr := round64_candidate_err q
  have hulp : (2 : ℚ) ^ GoFloat.ulpExp q / 2 ≤ |q| * 2 ^ (-53 : Int) := by
    have : (2 : ℚ) ^ GoFloat.ulpExp q / 2 = 2 ^ Int.log 2 |q| * 2 ^ (-53 : Int) := by
      rw [he, ← zpow_add₀ (by norm_num : (2 : ℚ) ≠ 0)]
      have e1 : Int.log 2 |q| + -53 = (Int.log 2 |q| - 52) + (-1) := by ring
      rw [e1, zpow_add₀ (by norm_num : (2 : ℚ) ≠ 0)]
      norm_num
      ring
    rw [this]
    exact mul_le_mul_of_nonneg_right hL1 (two_zpow_pos _).le
  have hfin : |(GoFloat.roundHalfEven (q / 2 ^ GoFloat.ulpExp q) : ℚ) * 2 ^ GoFloat.ulpExp q - q|
      ≤ |q| * 2 ^ (-53 : Int) := le_trans herr hulp
  refine ⟨(GoFloat.roundHalfEven (q / 2 ^ GoFloat.ulpExp q) : ℚ) * 2 ^ GoFloat.ulpExp q, ?_, hfin⟩
  have hsmall : |(GoFloat.roundHalfEven (q / 2 ^ GoFloat.ulpExp q) : ℚ) * 2 ^ GoFloat.ulpExp q| < 2 ^ 1024 := by
    have h1 : |(GoFloat.roundHalfEven (q / 2 ^ GoFloat.ulpExp q) : ℚ) * 2 ^ GoFloat.ulpExp q|
        ≤ |q| + |q| * 2 ^ (-53 : Int) := by
      have := abs_sub_abs_le_abs_sub
        ((GoFloat.roundHalfEven (q / 2 ^ GoFloat.ulpExp q) : ℚ) * 2 ^ GoFloat.ulpExp q) q
      linarith
    have h2 : |q| * 2 ^ (-53 : Int) ≤ |q| := by
      have : (2 : ℚ) ^ (-53 : Int) ≤ 1 := by norm_num
      nlinarith
    have h3 : (2 : ℚ) ^ 1024 = 2 ^ 1023 * 2 := by
      rw [show (1024 : ℕ) = 1023 + 1 from rfl, pow_succ]
    linarith
  simp only [GoFloat.round64, if_neg (not_le.mpr hsmall)]

/-- The rounding of a positive value in the normal range lies between `q (1 - 2^-53)` and
`q (1 + 2^-53)`. -/
theorem round64_pos (q : ℚ) (hlo : (2 : ℚ) ^ (-1022 : Int) ≤ q) (hhi : q < 2 ^ 1023) :
    ∃ r, GoFloat.round64 q = GoFloat.fin r ∧ q * (1 - 2 ^ (-53 : Int)) ≤ r ∧ r ≤ q * (1 + 2 ^ (-53 : Int)) := by
  have hpos : 0 < q := lt_of_lt_of_le (two_zpow_pos _) hlo
  obtain ⟨r, hr, herr⟩ := round64_rel q ((abs_of_pos hpos).symm ▸ hlo)
    ((abs_of_pos hpos).le.trans_lt hhi)
  rw [abs_of_pos hpos, abs_le] at herr
  exact ⟨r, hr, by linarith, by linarith⟩

/-- Rounding is idempotent: a finite result of `GoFloat.round64` is a binary64 value. -/
theorem round64_idem {x r : ℚ} (h : GoFloat.round64 x = GoFloat.fin r) : GoFloat.round64 r = GoFloat.fin r := by
  unfold GoFloat.round64 at h
  simp only at h
  split_ifs at h with hov
  have hr : (GoFloat.roundHalfEven (x / 2 ^ GoFloat.ulpExp x) : ℚ) * 2 ^ GoFloat.ulpExp x = r := by
    injection h
  have hbig : |r| < 2 ^ 1024 := by rw [← hr]; exact not_le.mp hov
  by_cases hx : x = 0
  · subst hx
    have : r = 0 := by rw [← hr]; simp [GoFloat.roundHalfEven]
    rw [this]; exact round64_zero
  obtain ⟨_, hL2⟩ := log2_bounds hx
  have hp := two_zpow_pos (GoFloat.ulpExp x)
  have hy : |x / 2 ^ GoFloat.ulpExp x| < 2 ^ (53 : Int) := by
    rw [abs_div, abs_of_pos hp, div_lt_iff₀ hp, ← zpow_add₀ (by norm_num : (2 : ℚ) ≠ 0)]
    refine lt_of_lt_of_le hL2 (zpow_le_zpow_right₀ (by norm_num) ?_)
    unfold GoFloat.ulpExp
    have := le_max_left (Int.log 2 |x|) (-1022)
    omega
  have hz : |GoFloat.roundHalfEven (x / 2 ^ GoFloat.ulpExp x)| ≤ 2 ^ 53 := by
    have h1 := roundHalfEven_sub_le (x / 2 ^ GoFloat.ulpExp x)
    rw [abs_le] at h1
    rw [abs_lt] at hy
    have hu : (GoFloat.roundHalfEven (x / 2 ^ GoFloat.ulpExp x) : ℚ) < 2 ^ 53 + 1 := by
      have : (2 : ℚ) ^ (53 : Int) = 2 ^ 53 := by norm_num
      linarith [h1.1, h1.2, hy.2]
    have hl : -(2 ^ 53 : ℚ) - 1 < (GoFloat.roundHalfEven (x / 2 ^ GoFloat.ulpExp x) : ℚ) := by
      have : (2 : ℚ) ^ (53 : Int) = 2 ^ 53 := by norm_num
      linarith [h1.1, h1.2, hy.1]
    have hu' : GoFloat.roundHalfEven (x / 2 ^ GoFloat.ulpExp x) < 2 ^ 53 + 1 := by exact_mod_cast hu
    have hl' : -(2 ^ 53) - 1 < GoFloat.roundHalfEven (x / 2 ^ GoFloat.ulpExp x) := by exact_mod_cast hl
    rw [abs_le]; constructor <;> omega
  have he := ulpExp_ge x
  rcases lt_or_eq_of_le hz with hlt | heq
  · have := round64_dyadic (GoFloat.roundHalfEven (x / 2 ^ GoFloat.ulpExp x)) (GoFloat.ulpExp x) hlt he
      (by rw [hr]; exact hbig)
    rwa [hr] at this
  · have hsplit : r = ((GoFloat.roundHalfEven (x / 2 ^ GoFloat.ulpExp x) / 2 : Int) : ℚ)
        * 2 ^ (GoFloat.ulpExp x + 1) := by
      rw [← hr, zpow_add₀ (by norm_num : (2 : ℚ) ≠ 0), zpow_one]
      have hev : GoFloat.roundHalfEven (x / 2 ^ GoFloat.ulpExp x)
          = GoFloat.roundHalfEven (x / 2 ^ GoFloat.ulpExp x) / 2 * 2 := by
        rcases abs_eq (by norm_num : (0 : Int) ≤ 2 ^ 53) |>.mp heq with h1 | h1 <;>
          rw [h1] <;> norm_num
      conv_lhs => rw [hev]
      push_cast
      ring
    have hhalf : |GoFloat.roundHalfEven (x / 2 ^ GoFloat.ulpExp x) / 2| < 2 ^ 53 := by
      rcases abs_eq (by norm_num : (0 : Int) ≤ 2 ^ 53) |>.mp heq with h1 | h1 <;>
        rw [h1] <;> norm_num
    have := round64_dyadic (GoFloat.roundHalfEven (x / 2 ^ GoFloat.ulpExp x) / 2) (GoFloat.ulpExp x + 1) hhalf
      (by omega) (by rw [← hsplit]; exact hbig)
    rwa [← hsplit] at this


theorem roundHalfEven_eq_of_lt {y : ℚ} {z : Int} (h : |y - z| < 1 / 2) :
    GoFloat.roundHalfEven y = z := by
  rw [abs_lt] at h
  unfold GoFloat.roundHalfEven
  by_cases hc : (z : ℚ) ≤ y
  · have hf : ⌊y⌋ = z := by
      rw [Int.floor_eq_iff]; constructor <;> linarith
    rw [hf, if_pos (by linarith)]
  · have hf : ⌊y⌋ = z - 1 := by
      rw [Int.floor_eq_iff]; push_cast; constructor <;> linarith
    rw [hf]
    push_cast
    rw [if_neg (by linarith), if_pos (by linarith)]
    ring

theorem roundHalfEven_tie (z : Int) :
    GoFloat.roundHalfEven ((z : ℚ) + 1 / 2) = if z % 2 = 0 then z else z + 1 := by
  have hf : ⌊(z : ℚ) + 1 / 2⌋ = z := by
    rw [Int.floor_eq_iff]; constructor <;> linarith
  unfold GoFloat.roundHalfEven
  rw [hf, if_neg (by linarith), if_neg (by linarith)]

theorem ulpExp_eq {q : ℚ} {e : Int} (hL1 : (2 : ℚ) ^ (e + 52) ≤ |q|)
    (hL2 : |q| < (2 : ℚ) ^ (e + 53)) (he : -1074 ≤ e) : GoFloat.ulpExp q = e := by
  have hpos : 0 < |q| := lt_of_lt_of_le (two_zpow_pos _) hL1
  have h1 : e + 52 ≤ Int.log 2 |q| :=
    (Int.zpow_le_iff_le_log (b := 2) (by norm_num) hpos).mp (by exact_mod_cast hL1)
  have h2 : Int.log 2 |q| < e + 53 :=
    (Int.lt_zpow_iff_log_lt (b := 2) (by norm_num) hpos).mp (by exact_mod_cast hL2)
  unfold GoFloat.ulpExp
  rcases max_cases (Int.log 2 |q|) (-1022) with ⟨h, _⟩ | ⟨h, _⟩ <;> omega

/-- Evaluation of `GoFloat.round64` at a value that is not half-way between two binary64 values:
`e` is the exponent of the unit in the last place and `z` the nearest significand. -/
theorem round64_eval {q : ℚ} (e z : Int) (hL1 : (2 : ℚ) ^ (e + 52) ≤ |q|)
    (hL2 : |q| < (2 : ℚ) ^ (e + 53)) (he : -1074 ≤ e) (hz : |q / 2 ^ e - z| < 1 / 2)
    (hbig : |(z : ℚ) * 2 ^ e| < 2 ^ 1024) : GoFloat.round64 q = GoFloat.fin ((z : ℚ) * 2 ^ e) := by
  have hu := ulpExp_eq hL1 hL2 he
  simp only [GoFloat.round64, hu, roundHalfEven_eq_of_lt hz, if_neg (not_le.mpr hbig)]

/-- Evaluation of `GoFloat.round64` at a value half-way between two binary64 values. -/
theorem round64_eval_tie {q : ℚ} (e z : Int) (hL1 : (2 : ℚ) ^ (e + 52) ≤ |q|)
    (hL2 : |q| < (2 : ℚ) ^ (e + 53)) (he : -1074 ≤ e) (hz : q / 2 ^ e = z + 1 / 2)
    (hbig : |((if z % 2 = 0 then z else z + 1 : Int) : ℚ) * 2 ^ e| < 2 ^ 1024) :
    GoFloat.round64 q = GoFloat.fin (((if z % 2 = 0 then z else z + 1 : Int) : ℚ) * 2 ^ e) := by
  have hu := ulpExp_eq hL1 hL2 he
  simp only [GoFloat.round64, hu, hz, roundHalfEven_tie, if_neg (not_le.mpr hbig)]

theorem small_lt_huge {a : ℚ} (h : |a| < 2 ^ 64) : |a| < 2 ^ 1024 :=
  lt_of_lt_of_le h (pow_le_pow_right₀ (by norm_num) (by norm_num))

/-- C1: for thread count `T >= 1`, when the total operation count `C` is at least `T`
`newWorker` returns a worker whose quota is `floor (C / T)`; the `T` quotas sum to
`T * floor (C / T)`, which is at most `C` and greater than `C - T`; when `C < T`
`newWorker` returns no worker and exits with status -1. -/
theorem newWorker_quota (p : Properties) (threadID T : Int) (hT : 1 ≤ T) :
    (T ≤ totalOpCount p →
      (∃ w, newWorker p threadID T = .ok w ∧ w.opCount = totalOpCount p / T) ∧
      (∑ i in Finset.range T.toNat, quotaOf (newWorker p i T)) = T * (totalOpCount p / T) ∧
      T * (totalOpCount p / T) ≤ totalOpCount p ∧
      totalOpCount p - T < T * (totalOpCount p / T)) ∧
    (totalOpCount p < T → newWorker p threadID T = .error (.exit (-1))) := by
  have hq : ∀ i : Int, T ≤ totalOpCount p →
      ∃ w, newWorker p i T = .ok w ∧ w.opCount = totalOpCount p / T := by
    intro i hC
    have h0 : (0 : Int) ≤ totalOpCount p := by omega
    have hne : T ≠ 0 := by omega
    have hne1 : ¬ (totalOpCount p = -(2 ^ 63) ∧ T = -1) := by omega
    have hlt : ¬ totalOpCount p < T := by omega
    have hd : Int.tdiv (totalOpCount p) T = totalOpCount p / T :=
      Int.tdiv_eq_ediv h0 (by omega)
    have hg : goDiv64 (totalOpCount p) T = .ok (totalOpCount p / T) := by
      unfold goDiv64
      rw [if_neg hne, if_neg hne1, hd]
    simp only [newWorker, if_neg hlt, hg]
    exact ⟨_, rfl, rfl⟩
  constructor
  · intro hC
    refine ⟨hq threadID hC, ?_, ?_, ?_⟩
    · have : ∀ i ∈ Finset.range T.toNat,
          quotaOf (newWorker p (i : Int) T) = totalOpCount p / T := by
        intro i _
        obtain ⟨w, hw, hwq⟩ := hq i hC
        simp [quotaOf, hw, hwq]
      rw [Finset.sum_congr rfl this]
      simp only [Finset.sum_const, Finset.card_range, nsmul_eq_mul]
      have : ((T.toNat : Nat) : Int) = T := Int.toNat_of_nonneg (by omega)
      rw [this]
    · exact Int.mul_ediv_self_le (by omega)
    · have := Int.lt_mul_ediv_self_add (x := totalOpCount p) (k := T) (by omega)
      omega
  · intro hC
    simp [newWorker, hC]

/-- Witness of C1 at 2 threads and 5 operations (a transaction run). -/
theorem newWorker_quota_witness :
    (∃ w, newWorker ⟨true, 1, .fin 0, .fin 1, 0, 1, .fin 0, 5, none, 0, 0, "none", false, false⟩
        0 2 = .ok w ∧ w.opCount = 2) := by
  have h := (newWorker_quota
    ⟨true, 1, .fin 0, .fin 1, 0, 1, .fin 0, 5, none, 0, 0, "none", false, false⟩ 0 2
    (by decide)).1 (by decide)
  obtain ⟨w, hw, hwq⟩ := h.1
  exact ⟨w, hw, by rw [hwq]; decide⟩

/-! ### Helper lemmas -/

theorem wrap64_of_inRange {x : Int} (h : InRange64 x) : wrap64 x = x := by
  unfold InRange64 at h
  unfold wrap64
  omega

theorem truncQ_of_nonneg {q : ℚ} (h : 0 ≤ q) : GoFloat.truncQ q = ⌊q⌋ := by
  simp [GoFloat.truncQ, h]

theorem toInt64_intCast (n : Int) (h : InRange64 n) :
    GoFloat.toInt64 (GoFloat.fin (n : ℚ)) = n := by
  have ht : GoFloat.truncQ (n : ℚ) = n := by
    unfold GoFloat.truncQ
    split_ifs <;> simp
  simp only [GoFloat.toInt64, ht, if_pos h]

theorem ofInt_small (n : Int) (hn : |n| < 2 ^ 53) : GoFloat.ofInt n = GoFloat.fin (n : ℚ) :=
  round64_intCast n hn

theorem small_abs_lt_huge {a : ℚ} (h : |a| < 2 ^ 64) : |a| < 2 ^ 1024 :=
  lt_of_lt_of_le h (pow_le_pow_right₀ (by norm_num) (by norm_num))

theorem toInt64_half_add (k : Int) (h0 : 0 ≤ k) (h : k < 2 ^ 52) :
    GoFloat.toInt64 (GoFloat.add (GoFloat.fin (1 / 2)) (GoFloat.ofInt k)) = k := by
  have hk : (0 : ℚ) ≤ k := by exact_mod_cast h0
  have hk2 : (k : ℚ) < 2 ^ 52 := by exact_mod_cast h
  have hnn : (0 : ℚ) ≤ 1 / 2 + (k : ℚ) := by positivity
  have hfl : ⌊(1 / 2 + (k : ℚ))⌋ = k := by
    rw [Int.floor_eq_iff]
    constructor <;> linarith
  have hdy : (1 : ℚ) / 2 + (k : ℚ) = ((2 * k + 1 : Int) : ℚ) * 2 ^ (-1 : Int) := by
    push_cast
    rw [zpow_neg_one]
    ring
  have hr : GoFloat.round64 (1 / 2 + (k : ℚ)) = GoFloat.fin (1 / 2 + (k : ℚ)) := by
    rw [hdy]
    refine round64_dyadic (2 * k + 1) (-1) (by rw [abs_lt]; constructor <;> omega)
      (by norm_num) (small_abs_lt_huge ?_)
    rw [← hdy, abs_of_nonneg hnn]
    have : (2 : ℚ) ^ 52 ≤ 2 ^ 64 - 1 := by norm_num
    linarith
  have hin : InRange64 k := by unfold InRange64; omega
  rw [ofInt_small k (by rw [abs_lt]; constructor <;> omega)]
  simp only [GoFloat.add, hr, GoFloat.toInt64, truncQ_of_nonneg hnn, hfl, if_pos hin]

theorem stepMultiplier_eq (t P : Int) (h0 : 0 ≤ t) (htP : t < P) (hP : P < 2 ^ 61) :
    stepMultiplier t P = .ok (3 - t * 3 / P) := by
  have h3 : InRange64 (t * 3) := by unfold InRange64; omega
  have hne : P ≠ 0 := by omega
  have hne1 : ¬ (t * 3 = -(2 ^ 63) ∧ P = -1) := by omega
  have hd : Int.tdiv (t * 3) P = t * 3 / P := Int.tdiv_eq_ediv (by omega) (by omega)
  have hk0 : 0 ≤ t * 3 / P := Int.ediv_nonneg (by omega) (by omega)
  have hk2 : t * 3 / P < 3 := Int.ediv_lt_of_lt_mul (by omega) (by omega)
  have hg : goDiv64 (t * 3) P = .ok (t * 3 / P) := by
    unfold goDiv64
    rw [if_neg hne, if_neg hne1, hd]
  have hkr : t * 3 / P < 2 ^ 52 := by omega
  have hvr : InRange64 (3 - t * 3 / P) := by unfold InRange64; omega
  simp only [stepMultiplier, wrap64_of_inRange h3, hg, toInt64_half_add _ hk0 hkr,
    wrap64_of_inRange hvr]

/-- On a position inside the period the step multiplier is `3 - floor (3 t / P)`, one of
1, 2 and 3. -/
theorem stepMultiplier_range (t P : Int) (h0 : 0 ≤ t) (htP : t < P) (hP : P < 2 ^ 61) :
    ∃ v, stepMultiplier t P = .ok v ∧ v = 3 - ⌊(3 * t : ℚ) / P⌋ ∧ 1 ≤ v ∧ v ≤ 3 := by
  have hk0 : 0 ≤ t * 3 / P := Int.ediv_nonneg (by omega) (by omega)
  have hk2 : t * 3 / P < 3 := Int.ediv_lt_of_lt_mul (by omega) (by omega)
  refine ⟨_, stepMultiplier_eq t P h0 htP hP, ?_, by omega, by omega⟩
  have hPn : ((P.toNat : Nat) : Int) = P := Int.toNat_of_nonneg (by omega)
  have : (3 * t : ℚ) / P = ((t * 3 : Int) : ℚ) / ((P.toNat : Nat) : ℚ) := by
    have h2 : ((P.toNat : Nat) : ℚ) = (P : ℚ) := by exact_mod_cast hPn
    rw [h2]; push_cast; ring
  rw [this, Rat.floor_intCast_div_natCast, hPn]

theorem goMod_eq (e P : Int) (he : 0 ≤ e) (hP : 0 < P) : goMod e P = .ok (e % P) := by
  have hne : P ≠ 0 := by omega
  unfold goMod
  rw [if_neg hne, Int.tmod_eq_emod he (by omega)]

theorem delayCeiling_eq : delayCeiling = GoFloat.fin (3 * 10 ^ 10) := by
  have h := round64_intCast (3 * 10 ^ 10) (by norm_num)
  unfold delayCeiling
  simp only [GoFloat.mul]
  push_cast at h
  rw [show (3 : ℚ) * 10 ^ 10 = 30000000000 by norm_num]
  exact h

theorem truncQ_le {q : ℚ} {b : Int} (hb : 0 ≤ b) (h : q ≤ b) : GoFloat.truncQ q ≤ b := by
  unfold GoFloat.truncQ
  split_ifs with h0
  · have h1 : ((⌊q⌋ : Int) : ℚ) ≤ b := le_trans (Int.floor_le q) h
    exact_mod_cast h1
  · push_neg at h0
    have : ⌈q⌉ ≤ 0 := Int.ceil_le.mpr (by exact_mod_cast h0.le)
    omega

theorem toInt64_le {x : GoFloat} {b : Int} (hb : 0 ≤ b)
    (h : GoFloat.gt x (GoFloat.fin b) = false) : GoFloat.toInt64 x ≤ b := by
  cases x with
  | fin q =>
    have hq : q ≤ b := by simpa [GoFloat.gt] using h
    simp only [GoFloat.toInt64]
    split_ifs
    · exact truncQ_le hb hq
    · omega
  | inf s => simp only [GoFloat.toInt64]; omega
  | nan => simp only [GoFloat.toInt64]; omega

theorem clampDelay_not_gt (x : GoFloat) :
    GoFloat.gt (clampDelay x) (GoFloat.fin (3 * 10 ^ 10)) = false := by
  unfold clampDelay
  rw [delayCeiling_eq]
  split_ifs with h
  · simp only [GoFloat.gt, lt_irrefl, decide_False]
  · simpa using h

theorem toInt64_clampDelay_le (x : GoFloat) : GoFloat.toInt64 (clampDelay x) ≤ 3 * 10 ^ 10 := by
  have h := clampDelay_not_gt x
  have h' : GoFloat.gt (clampDelay x) (GoFloat.fin ((3 * 10 ^ 10 : Int) : ℚ)) = false := by
    have : (((3 * 10 ^ 10 : Int)) : ℚ) = 3 * 10 ^ 10 := by norm_num
    rw [this]; exact h
  exact toInt64_le (by norm_num) h'

/-- Rounding a positive value of moderate size: the result is positive and within the
relative error `2^-53`. -/
theorem round64_mid (q : ℚ) (h1 : 1 / 2 ^ 100 ≤ q) (h2 : q ≤ 2 ^ 100) :
    ∃ r, GoFloat.round64 q = GoFloat.fin r ∧ q * (1 - 1 / 2 ^ 53) ≤ r ∧
      r ≤ q * (1 + 1 / 2 ^ 53) ∧ 0 < r := by
  have hq : 0 < q := lt_of_lt_of_le (by positivity) h1
  have hlo : (2 : ℚ) ^ (-1022 : Int) ≤ q := by
    have e : (1 : ℚ) / 2 ^ 100 = 2 ^ (-100 : Int) := by norm_num
    rw [e] at h1
    exact le_trans (zpow_le_zpow_right₀ (by norm_num) (by norm_num)) h1
  have hhi : q < 2 ^ 1023 :=
    lt_of_le_of_lt h2 (pow_lt_pow_right₀ (by norm_num) (by norm_num))
  obtain ⟨r, hr, hl, hu⟩ := round64_pos q hlo hhi
  have e53 : (2 : ℚ) ^ (-53 : Int) = 1 / 2 ^ 53 := by norm_num
  rw [e53] at hl hu
  refine ⟨r, hr, hl, hu, ?_⟩
  have : (0 : ℚ) < q * (1 - 1 / 2 ^ 53) := mul_pos hq (by norm_num)
  linarith

theorem scaled_bounds {q r l u lo hi : ℚ} (hlo : 0 ≤ lo) (hq1 : lo ≤ q) (hq2 : q ≤ hi)
    (hl : 1 / 2 ≤ l) (hu0 : 0 ≤ u) (hu : u ≤ 2) (h1 : q * l ≤ r) (h2 : r ≤ q * u) :
    lo / 2 ≤ r ∧ r ≤ 2 * hi := by
  have hq : 0 ≤ q := le_trans hlo hq1
  constructor
  · calc lo / 2 = lo * (1 / 2) := by ring
      _ ≤ q * l := mul_le_mul hq1 hl (by norm_num) hq
      _ ≤ r := h1
  · calc r ≤ q * u := h2
      _ ≤ hi * 2 := mul_le_mul hq2 hu hu0 (le_trans hq hq2)
      _ = 2 * hi := by ring

/-- The three float64 divisions of lines 98-104, from the converted target `r1` and thread
count `t1`, for any rounding with relative error factors `l` and `u`: the quotient stays
within the factors `l^2/u^3` and `u^2/l^3` of `10^9 * T / R`. -/
theorem tick_chain (l u : ℚ) (hl2 : 1 / 2 ≤ l) (hu2 : u ≤ 2) (hu1 : 1 ≤ u)
    (hround : ∀ q : ℚ, 1 / 2 ^ 100 ≤ q → q ≤ 2 ^ 100 →
      ∃ r, GoFloat.round64 q = GoFloat.fin r ∧ q * l ≤ r ∧ r ≤ q * u ∧ 0 < r)
    (R T r1 t1 : ℚ) (hR1 : 1 ≤ R) (hR2 : R ≤ 2 ^ 63) (hT1 : 1 ≤ T)
    (hT2 : T ≤ 2 ^ 63)
    (hr1 : R * l ≤ r1) (hr2 : r1 ≤ R * u)
    (ht1 : T * l ≤ t1) (ht2 : t1 ≤ T * u) :
    ∃ b c : ℚ,
      GoFloat.div (GoFloat.div (GoFloat.fin r1) (GoFloat.fin t1)) (GoFloat.fin 1000)
        = GoFloat.fin b ∧ 0 < b ∧
      GoFloat.div (GoFloat.fin 1000000) (GoFloat.fin b) = GoFloat.fin c ∧
      10 ^ 9 * T / R * (l ^ 2 / u ^ 3) ≤ c ∧
      c ≤ 10 ^ 9 * T / R * (u ^ 2 / l ^ 3) := by
  have hl : (0 : ℚ) < l := by linarith
  have hu : (0 : ℚ) < u := by linarith
  have hRpos : (0 : ℚ) < R := by linarith
  have hTpos : (0 : ℚ) < T := by linarith
  -- the converted operands
  obtain ⟨hr1lo, hr1hi⟩ := scaled_bounds (by norm_num) hR1 hR2 hl2 hu.le hu2 hr1 hr2
  obtain ⟨ht1lo, ht1hi⟩ := scaled_bounds (by norm_num) hT1 hT2 hl2 hu.le hu2 ht1 ht2
  have hr1pos : (0 : ℚ) < r1 := by linarith
  have ht1pos : (0 : ℚ) < t1 := by linarith
  -- first division
  have hq1lo : (1 : ℚ) / 2 ^ 65 ≤ r1 / t1 := by
    have := div_le_div₀ hr1pos.le hr1lo ht1pos ht1hi
    calc (1 : ℚ) / 2 ^ 65 = 1 / 2 / (2 * 2 ^ 63) := by norm_num
      _ ≤ r1 / t1 := this
  have hq1hi : r1 / t1 ≤ 2 ^ 65 := by
    have := div_le_div₀ (by positivity : (0 : ℚ) ≤ 2 * 2 ^ 63) hr1hi
      (by norm_num : (0 : ℚ) < 1 / 2) ht1lo
    calc r1 / t1 ≤ 2 * 2 ^ 63 / (1 / 2) := this
      _ = 2 ^ 65 := by norm_num
  obtain ⟨a, ha, hal, hau, hapos⟩ := hround (r1 / t1)
    (le_trans (by norm_num) hq1lo) (le_trans hq1hi (by norm_num))
  obtain ⟨halo, hahi⟩ := scaled_bounds (by norm_num) hq1lo hq1hi hl2 hu.le hu2 hal hau
  -- second division
  have hq2lo : (1 : ℚ) / 2 ^ 76 ≤ a / 1000 := by
    rw [le_div_iff₀ (by norm_num)]
    calc (1 : ℚ) / 2 ^ 76 * 1000 ≤ 1 / 2 ^ 65 / 2 := by norm_num
      _ ≤ a := halo
  have hq2hi : a / 1000 ≤ 2 ^ 66 := by
    rw [div_le_iff₀ (by norm_num)]
    calc a ≤ 2 * 2 ^ 65 := hahi
      _ ≤ 2 ^ 66 * 1000 := by norm_num
  obtain ⟨b, hb, hbl, hbu, hbpos⟩ := hround (a / 1000)
    (le_trans (by norm_num) hq2lo) (le_trans hq2hi (by norm_num))
  obtain ⟨hblo, hbhi⟩ := scaled_bounds (by norm_num) hq2lo hq2hi hl2 hu.le hu2 hbl hbu
  -- third division
  have hq3lo : (1 : ℚ) / 2 ^ 48 ≤ 1000000 / b := by
    rw [le_div_iff₀ hbpos]
    calc (1 : ℚ) / 2 ^ 48 * b ≤ 1 / 2 ^ 48 * (2 * 2 ^ 66) := by
          exact mul_le_mul_of_nonneg_left hbhi (by positivity)
      _ ≤ 1000000 := by norm_num
  have hq3hi : (1000000 : ℚ) / b ≤ 2 ^ 97 := by
    rw [div_le_iff₀ hbpos]
    calc (1000000 : ℚ) ≤ 2 ^ 97 * (1 / 2 ^ 76 / 2) := by norm_num
      _ ≤ 2 ^ 97 * b := mul_le_mul_of_nonneg_left hblo (by positivity)
  obtain ⟨c, hc, hcl, hcu, hcpos⟩ := hround (1000000 / b)
    (le_trans (by norm_num) hq3lo) (le_trans hq3hi (by norm_num))
  have ht1ne : t1 ≠ 0 := ne_of_gt ht1pos
  have hbne : b ≠ 0 := ne_of_gt hbpos
  have h1000 : (1000 : ℚ) ≠ 0 := by norm_num
  refine ⟨b, c, ?_, hbpos, ?_, ?_, ?_⟩
  · simp only [GoFloat.div, if_neg ht1ne, ha, if_neg h1000, hb]
  · simp only [GoFloat.div, if_neg hbne, hc]
  · -- lower bound: b is at most R u^3 / (1000 T l)
    have hq1 : r1 / t1 ≤ R * u / (T * l) :=
      div_le_div₀ (by positivity) hr2 (by positivity) ht1
    have hb1 : b ≤ R * u / (T * l) * u * u / 1000 := by
      have h1 : a ≤ R * u / (T * l) * u := le_trans hau (mul_le_mul_of_nonneg_right hq1 hu.le)
      have h2 : a / 1000 ≤ R * u / (T * l) * u / 1000 :=
        div_le_div_of_nonneg_right h1 (by norm_num)
      calc b ≤ a / 1000 * u := hbu
        _ ≤ R * u / (T * l) * u / 1000 * u := mul_le_mul_of_nonneg_right h2 hu.le
        _ = R * u / (T * l) * u * u / 1000 := by ring
    have hq3 : 1000000 / (R * u / (T * l) * u * u / 1000) ≤ 1000000 / b :=
      div_le_div_of_nonneg_left (by norm_num) hbpos hb1
    calc 10 ^ 9 * T / R * (l ^ 2 / u ^ 3)
        = 1000000 / (R * u / (T * l) * u * u / 1000) * l := by
          field_simp
          ring
      _ ≤ 1000000 / b * l := mul_le_mul_of_nonneg_right hq3 hl.le
      _ ≤ c := hcl
  · have hq1 : R * l / (T * u) ≤ r1 / t1 :=
      div_le_div₀ hr1pos.le hr1 (by positivity) ht2
    have hb1 : R * l / (T * u) * l * l / 1000 ≤ b := by
      have h1 : R * l / (T * u) * l ≤ a := le_trans (mul_le_mul_of_nonneg_right hq1 hl.le) hal
      have h2 : R * l / (T * u) * l / 1000 ≤ a / 1000 :=
        div_le_div_of_nonneg_right h1 (by norm_num)
      calc R * l / (T * u) * l * l / 1000 = R * l / (T * u) * l / 1000 * l := by ring
        _ ≤ a / 1000 * l := mul_le_mul_of_nonneg_right h2 hl.le
        _ ≤ b := hbl
    have hpos : (0 : ℚ) < R * l / (T * u) * l * l / 1000 := by positivity
    have hq3 : 1000000 / b ≤ 1000000 / (R * l / (T * u) * l * l / 1000) :=
      div_le_div_of_nonneg_left (by norm_num) hpos hb1
    calc c ≤ 1000000 / b * u := hcu
      _ ≤ 1000000 / (R * l / (T * u) * l * l / 1000) * u :=
          mul_le_mul_of_nonneg_right hq3 hu.le
      _ = 10 ^ 9 * T / R * (u ^ 2 / l ^ 3) := by
          field_simp
          ring

/-- The worker `newWorker` builds for a positive target `R` and `T >= 1` threads: its
tick is the truncated float64 quotient `c`, which lies within the relative error
`6 * 2^-53` of `10^9 * T / R`. -/
theorem newWorker_tick (p : Properties) (threadID T : Int) (hT : 1 ≤ T) (hT63 : T < 2 ^ 63)
    (hC : T ≤ totalOpCount p) (hR : 0 < p.target) (hR63 : p.target < 2 ^ 63) :
    ∃ (w : worker) (b c : ℚ), newWorker p threadID T = .ok w ∧
      w.targetOpsPerMs = GoFloat.fin b ∧ 0 < b ∧
      w.targetOpsTickNs = GoFloat.toInt64 (GoFloat.fin c) ∧
      w.targetOpsTickNs = GoFloat.toInt64 (GoFloat.div (GoFloat.fin 1000000)
        (GoFloat.div (GoFloat.div (GoFloat.ofInt p.target) (GoFloat.ofInt T))
          (GoFloat.fin 1000))) ∧
      10 ^ 9 * (T : ℚ) / p.target * (1 - 6 / 2 ^ 53) ≤ c ∧
      c ≤ 10 ^ 9 * (T : ℚ) / p.target * (1 + 6 / 2 ^ 53) := by
  have hne : T ≠ 0 := by omega
  have hne1 : ¬ (totalOpCount p = -(2 ^ 63) ∧ T = -1) := by omega
  have hlt : ¬ totalOpCount p < T := by omega
  have hg : goDiv64 (totalOpCount p) T = .ok (Int.tdiv (totalOpCount p) T) := by
    unfold goDiv64
    rw [if_neg hne, if_neg hne1]
  have hR1 : (1 : ℚ) ≤ p.target := by exact_mod_cast (by omega : (1 : Int) ≤ p.target)
  have hR2 : (p.target : ℚ) ≤ 2 ^ 63 := by exact_mod_cast (by omega : p.target ≤ 2 ^ 63)
  have hT1 : (1 : ℚ) ≤ T := by exact_mod_cast hT
  have hT2 : (T : ℚ) ≤ 2 ^ 63 := by exact_mod_cast (by omega : T ≤ 2 ^ 63)
  obtain ⟨r1, hr, hrl, hru, _⟩ := round64_mid (p.target : ℚ)
    (le_trans (by norm_num) hR1) (le_trans hR2 (by norm_num))
  obtain ⟨t1, ht, htl, htu, _⟩ := round64_mid (T : ℚ)
    (le_trans (by norm_num) hT1) (le_trans hT2 (by norm_num))
  obtain ⟨b, c, hb, hbpos, hc, hcl, hcu⟩ :=
    tick_chain (1 - 1 / 2 ^ 53) (1 + 1 / 2 ^ 53) (by norm_num) (by norm_num) (by norm_num)
      round64_mid (p.target : ℚ) (T : ℚ) r1 t1 hR1 hR2 hT1 hT2 hrl hru htl htu
  have hper : targetPerThreadPerms p T = GoFloat.fin b := by
    simp only [targetPerThreadPerms, if_pos hR, GoFloat.ofInt, hr, ht, hb]
  have hexpr : GoFloat.div (GoFloat.fin 1000000)
      (GoFloat.div (GoFloat.div (GoFloat.ofInt p.target) (GoFloat.ofInt T))
        (GoFloat.fin 1000)) = GoFloat.fin c := by
    simp only [GoFloat.ofInt, hr, ht, hb, hc]
  have hgt : GoFloat.gt (GoFloat.fin b) (GoFloat.fin 0) = true := by
    simp [GoFloat.gt, hbpos]
  have hx : (0 : ℚ) ≤ 10 ^ 9 * (T : ℚ) / p.target := by positivity
  have hlow : (1 : ℚ) - 6 / 2 ^ 53 ≤ (1 - 1 / 2 ^ 53) ^ 2 / (1 + 1 / 2 ^ 53) ^ 3 := by
    norm_num
  have hupp : ((1 : ℚ) + 1 / 2 ^ 53) ^ 2 / (1 - 1 / 2 ^ 53) ^ 3 ≤ 1 + 6 / 2 ^ 53 := by
    norm_num
  simp only [newWorker, if_neg hlt, hg, hper, hgt, if_true, hexpr, hc]
  exact ⟨_, b, c, rfl, rfl, hbpos, rfl, rfl,
    le_trans (mul_le_mul_of_nonneg_left hlow hx) hcl,
    le_trans hcu (mul_le_mul_of_nonneg_left hupp hx)⟩

theorem round64_100_over_11 : GoFloat.round64 (100 / 11)
    = GoFloat.fin (5117726849284655 / 562949953421312) := by
  have := round64_eval (q := 100 / 11) (-49) 5117726849284655 (by norm_num [abs_of_pos])
    (by norm_num [abs_of_pos]) (by norm_num) (by rw [abs_lt]; constructor <;> norm_num)
    (small_abs_lt_huge (by rw [abs_lt]; constructor <;> norm_num))
  rw [this]; norm_num

theorem round64_100_over_11_ms : GoFloat.round64 (5117726849284655 / 562949953421312 / 1000)
    = GoFloat.fin (5240552293667487 / 576460752303423488) := by
  have := round64_eval (q := 5117726849284655 / 562949953421312 / 1000) (-59)
    5240552293667487 (by norm_num [abs_of_pos])
    (by norm_num [abs_of_pos]) (by norm_num) (by rw [abs_lt]; constructor <;> norm_num)
    (small_abs_lt_huge (by rw [abs_lt]; constructor <;> norm_num))
  rw [this]; norm_num

theorem round64_100_over_11_tick :
    GoFloat.round64 (1000000 / (5240552293667487 / 576460752303423488))
      = GoFloat.fin (7381975039999999 / 67108864) := by
  have := round64_eval (q := 1000000 / (5240552293667487 / 576460752303423488)) (-26)
    7381975039999999 (by norm_num [abs_of_pos])
    (by norm_num [abs_of_pos]) (by norm_num) (by rw [abs_lt]; constructor <;> norm_num)
    (small_abs_lt_huge (by rw [abs_lt]; constructor <;> norm_num))
  rw [this]; norm_num

theorem tick_expr_100_over_11 :
    GoFloat.toInt64 (GoFloat.div (GoFloat.fin 1000000)
      (GoFloat.div (GoFloat.div (GoFloat.ofInt 100) (GoFloat.ofInt 11)) (GoFloat.fin 1000)))
      = 109999999 := by
  have h100 : GoFloat.ofInt 100 = GoFloat.fin 100 := by
    simpa using ofInt_small 100 (by norm_num)
  have h11 : GoFloat.ofInt 11 = GoFloat.fin 11 := by
    simpa using ofInt_small 11 (by norm_num)
  have hfl : ⌊(7381975039999999 / 67108864 : ℚ)⌋ = 109999999 := by
    rw [Int.floor_eq_iff]; constructor <;> norm_num
  have hnn : (0 : ℚ) ≤ 7381975039999999 / 67108864 := by norm_num
  have hin : InRange64 109999999 := by decide
  have e11 : (11 : ℚ) ≠ 0 := by norm_num
  have e1000 : (1000 : ℚ) ≠ 0 := by norm_num
  have eb : (5240552293667487 / 576460752303423488 : ℚ) ≠ 0 := by norm_num
  have d1 : GoFloat.div (GoFloat.fin 100) (GoFloat.fin 11)
      = GoFloat.fin (5117726849284655 / 562949953421312) := by
    simp only [GoFloat.div]
    rw [if_neg e11, round64_100_over_11]
  have d2 : GoFloat.div (GoFloat.fin (5117726849284655 / 562949953421312)) (GoFloat.fin 1000)
      = GoFloat.fin (5240552293667487 / 576460752303423488) := by
    simp only [GoFloat.div]
    rw [if_neg e1000, round64_100_over_11_ms]
  have d3 : GoFloat.div (GoFloat.fin 1000000)
      (GoFloat.fin (5240552293667487 / 576460752303423488))
      = GoFloat.fin (7381975039999999 / 67108864) := by
    simp only [GoFloat.div]
    rw [if_neg eb, round64_100_over_11_tick]
  rw [h100, h11, d1, d2, d3]
  simp only [GoFloat.toInt64]
  rw [truncQ_of_nonneg hnn, hfl, if_pos hin]

/-- C2 (counterexample): for the target 100 ops/s over 11 threads `newWorker` stores the
tick 109999999 ns, whereas `10^9 * 11 / 100` rounded down is 110000000: the three float64
divisions give 109999999.99999999, which the conversion truncates. -/
theorem tick_of_100_over_11 :
    ∃ w, newWorker { sampleProps "none" false 11 1 0 1 (GoFloat.fin 0) with target := 100 }
        0 11 = .ok w ∧
      w.targetOpsTickNs = 109999999 ∧ (10 ^ 9 * 11 / 100 : Int) = 110000000 := by
  obtain ⟨w, b, c, hw, _, _, _, htick, _, _⟩ := newWorker_tick
    { sampleProps "none" false 11 1 0 1 (GoFloat.fin 0) with target := 100 } 0 11
    (by decide) (by decide) (by decide) (by decide) (by decide)
  exact ⟨w, hw, htick.trans tick_expr_100_over_11, by decide⟩

/-- C2 (amended): for target throughput `R > 0` and `T >= 1` threads (both int64, with
`10^9 * T / R` below `2^50`) the tick interval is the float64 value of
`1000000.0 / ((R / T) / 1000.0)` truncated to int64, which differs from `10^9 * T / R`
rounded down by at most 1 ns; for every start time, current time and `opsDone` whose
schedule fits the Duration type `throttle` waits exactly
`max 0 (start + opsDone * tick - now)`: never a negative time, and nothing when
`opsDone * tick < now - start`. With no target (`R <= 0`) `throttle` waits nothing. -/
theorem throttle_tick_and_wait (p : Properties) (threadID T : Int) (hT : 1 ≤ T)
    (hT63 : T < 2 ^ 63) (hC : T ≤ totalOpCount p) :
    (0 < p.target → p.target < 2 ^ 63 → 10 ^ 9 * T / p.target < 2 ^ 50 →
      ∃ w, newWorker p threadID T = .ok w ∧
        w.targetOpsTickNs = GoFloat.toInt64 (GoFloat.div (GoFloat.fin 1000000)
          (GoFloat.div (GoFloat.div (GoFloat.ofInt p.target) (GoFloat.ofInt T))
            (GoFloat.fin 1000))) ∧
        |w.targetOpsTickNs - 10 ^ 9 * T / p.target| ≤ 1 ∧
        ∀ opsDone start now : Int,
          0 ≤ throttleWait { w with opsDone := opsDone } start now ∧
          (InRange64 (opsDone * w.targetOpsTickNs) →
           InRange64 (start + opsDone * w.targetOpsTickNs - now) →
            throttleWait { w with opsDone := opsDone } start now
                = max 0 (start + opsDone * w.targetOpsTickNs - now) ∧
            (opsDone * w.targetOpsTickNs < now - start →
              throttleWait { w with opsDone := opsDone } start now = 0))) ∧
    (p.target ≤ 0 →
      ∃ w, newWorker p threadID T = .ok w ∧
        ∀ opsDone start now : Int,
          throttle { w with opsDone := opsDone } start now = none ∧
          throttleWait { w with opsDone := opsDone } start now = 0) := by
  constructor
  · intro hR hR63 hfit
    obtain ⟨w, b, c, hw, hms, hbpos, htc, hexpr, hcl, hcu⟩ :=
      newWorker_tick p threadID T hT hT63 hC hR hR63
    have hTpos : (0 : ℚ) < T := by exact_mod_cast (by omega : (0 : Int) < T)
    have hRpos : (0 : ℚ) < p.target := by exact_mod_cast hR
    have hxpos : (0 : ℚ) < 10 ^ 9 * (T : ℚ) / p.target := by positivity
    have hfloor : ⌊(10 : ℚ) ^ 9 * (T : ℚ) / p.target⌋ = 10 ^ 9 * T / p.target := by
      have hval : (10 : ℚ) ^ 9 * (T : ℚ) / p.target
          = ((10 ^ 9 * T : Int) : ℚ) / (p.target.toNat : ℚ) := by
        have : ((p.target.toNat : Nat) : ℚ) = (p.target : ℚ) := by
          have h := Int.toNat_of_nonneg (le_of_lt hR)
          exact_mod_cast h
        rw [this]
        push_cast
        rfl
      rw [hval, Rat.floor_intCast_div_natCast, Int.toNat_of_nonneg (le_of_lt hR)]
    have hx1 : ((10 ^ 9 * T / p.target : Int) : ℚ) ≤ 10 ^ 9 * (T : ℚ) / p.target := by
      rw [← hfloor]; exact Int.floor_le _
    have hx2 : (10 : ℚ) ^ 9 * (T : ℚ) / p.target < ((10 ^ 9 * T / p.target : Int) : ℚ) + 1 := by
      rw [← hfloor]; exact Int.lt_floor_add_one _
    have hF50 : ((10 ^ 9 * T / p.target : Int) : ℚ) + 1 ≤ 2 ^ 50 := by
      have : 10 ^ 9 * T / p.target + 1 ≤ 2 ^ 50 := by omega
      exact_mod_cast this
    have hx50 : (10 : ℚ) ^ 9 * (T : ℚ) / p.target ≤ 2 ^ 50 := by linarith
    have hclo : (10 : ℚ) ^ 9 * (T : ℚ) / p.target - 3 / 4 ≤ c := by
      have : (10 : ℚ) ^ 9 * (T : ℚ) / p.target * (6 / 2 ^ 53) ≤ 3 / 4 := by
        calc (10 : ℚ) ^ 9 * (T : ℚ) / p.target * (6 / 2 ^ 53)
            ≤ 2 ^ 50 * (6 / 2 ^ 53) := mul_le_mul_of_nonneg_right hx50 (by norm_num)
          _ = 3 / 4 := by norm_num
      linarith
    have hchi : c ≤ (10 : ℚ) ^ 9 * (T : ℚ) / p.target + 3 / 4 := by
      have : (10 : ℚ) ^ 9 * (T : ℚ) / p.target * (6 / 2 ^ 53) ≤ 3 / 4 := by
        calc (10 : ℚ) ^ 9 * (T : ℚ) / p.target * (6 / 2 ^ 53)
            ≤ 2 ^ 50 * (6 / 2 ^ 53) := mul_le_mul_of_nonneg_right hx50 (by norm_num)
          _ = 3 / 4 := by norm_num
      linarith
    have hF0 : 0 ≤ 10 ^ 9 * T / p.target := Int.ediv_nonneg (by positivity) (le_of_lt hR)
    have hF0q : (0 : ℚ) ≤ ((10 ^ 9 * T / p.target : Int) : ℚ) := by exact_mod_cast hF0
    have hc0 : (0 : ℚ) ≤ c := by
      have : (0 : ℚ) ≤ 10 ^ 9 * (T : ℚ) / p.target * (1 - 6 / 2 ^ 53) :=
        mul_nonneg hxpos.le (by norm_num)
      linarith
    have hfc1 : ⌊c⌋ ≤ 10 ^ 9 * T / p.target + 1 := by
      have h1 : ((⌊c⌋ : Int) : ℚ) ≤ c := Int.floor_le c
      have h2 : ((⌊c⌋ : Int) : ℚ) < ((10 ^ 9 * T / p.target + 2 : Int) : ℚ) := by
        push_cast; linarith
      have h3 : ⌊c⌋ < 10 ^ 9 * T / p.target + 2 := by exact_mod_cast h2
      omega
    have hfc2 : 10 ^ 9 * T / p.target - 1 ≤ ⌊c⌋ := by
      have h1 : c < ((⌊c⌋ : Int) : ℚ) + 1 := Int.lt_floor_add_one c
      have h2 : ((10 ^ 9 * T / p.target - 2 : Int) : ℚ) < ((⌊c⌋ : Int) : ℚ) := by
        push_cast; linarith
      have h3 : 10 ^ 9 * T / p.target - 2 < ⌊c⌋ := by exact_mod_cast h2
      omega
    have hfc0 : 0 ≤ ⌊c⌋ := Int.floor_nonneg.mpr hc0
    have hin : InRange64 ⌊c⌋ := by unfold InRange64; omega
    have htick : w.targetOpsTickNs = ⌊c⌋ := by
      rw [htc]
      simp only [GoFloat.toInt64, truncQ_of_nonneg hc0, if_pos hin]
    have hle : GoFloat.le (GoFloat.fin b) (GoFloat.fin 0) = false := by
      simp [GoFloat.le, GoFloat.gt, hbpos]
    refine ⟨w, hw, hexpr, ?_, ?_⟩
    · rw [htick, abs_le]; constructor <;> omega
    · intro opsDone start now
      have hthr : throttle { w with opsDone := opsDone } start now
          = if timeSub (start + wrap64 (opsDone * w.targetOpsTickNs)) now < 0 then none
            else some (timeSub (start + wrap64 (opsDone * w.targetOpsTickNs)) now) := by
        simp only [throttle, hms, hle]
        rfl
      constructor
      · unfold throttleWait
        rw [hthr]
        split_ifs with h
        · simp
        · simp only [Option.getD_some]
          omega
      · intro h1 h2
        have hsub : timeSub (start + wrap64 (opsDone * w.targetOpsTickNs)) now
            = start + opsDone * w.targetOpsTickNs - now := by
          rw [wrap64_of_inRange h1]
          unfold InRange64 at h2
          unfold timeSub
          omega
        unfold throttleWait
        rw [hthr, hsub]
        constructor
        · split_ifs with h
          · simp only [Option.getD_none]; omega
          · simp only [Option.getD_some]; omega
        · intro hb
          rw [if_pos (by omega)]
          rfl
  · intro hR
    have hne : T ≠ 0 := by omega
    have hne1 : ¬ (totalOpCount p = -(2 ^ 63) ∧ T = -1) := by omega
    have hlt : ¬ totalOpCount p < T := by omega
    have hg : goDiv64 (totalOpCount p) T = .ok (Int.tdiv (totalOpCount p) T) := by
      unfold goDiv64
      rw [if_neg hne, if_neg hne1]
    have hper : targetPerThreadPerms p T = GoFloat.fin (-1) := by
      simp [targetPerThreadPerms, not_lt.mpr hR]
    have hgt : GoFloat.gt (GoFloat.fin (-1)) (GoFloat.fin 0) = false := by
      simp [GoFloat.gt]
    simp only [newWorker, if_neg hlt, hg, hper, hgt]
    refine ⟨_, rfl, ?_⟩
    intro opsDone start now
    have : throttle
        { ({ p := p, doTransactions := p.doTransactions, doBatch := decide (1 < p.batchSize),
             batchSize := p.batchSize, opCount := Int.tdiv (totalOpCount p) T,
             targetOpsPerMs := if false = true then GoFloat.fin (-1) else GoFloat.fin 0,
             threadID := threadID,
             targetOpsTickNs :=
               if false = true then
                 GoFloat.toInt64 (GoFloat.div (GoFloat.fin 1000000) (GoFloat.fin (-1)))
               else 0,
             opsDone := 0, mean := p.expectedValue, std := p.standardDeviation,
             delay := p.timeDelay, period := p.timePeriod,
             noiseRatio := p.noiseRatio } : worker) with opsDone := opsDone } start now
        = none := by
      simp [throttle, GoFloat.le, GoFloat.gt]
    exact ⟨this, by unfold throttleWait; rw [this]; rfl⟩

/-- Witness of C2 (amended): target 1000 ops/s over 2 threads: the tick is within 1 ns of
2 ms and the wait is never negative. -/
theorem throttle_tick_and_wait_witness :
    ∃ w, newWorker { sampleProps "none" false 10 1 0 1 (GoFloat.fin 0) with target := 1000 }
        0 2 = .ok w ∧
      |w.targetOpsTickNs - 2000000| ≤ 1 ∧
      0 ≤ throttleWait { w with opsDone := 3 } 0 1000000 := by
  obtain ⟨w, hw, _, htick, hall⟩ :=
    (throttle_tick_and_wait
      { sampleProps "none" false 10 1 0 1 (GoFloat.fin 0) with target := 1000 } 0 2
      (by decide) (by decide) (by decide)).1 (by decide) (by decide) (by decide)
  exact ⟨w, hw, htick, (hall 3 0 1000000).1⟩

theorem ctlPeriod_normal (pdf : GoFloat → GoFloat → Int → GoFloat) (w : worker) (e : Int)
    (rnd : Nat) (g : NoiseState) (hn : w.p.timeDistribution = "normal") (hP : w.period ≠ 0) :
    ctlPeriod pdf w e rnd g = .slept (GoFloat.toInt64 (clampDelay
      (GoFloat.mul (GoFloat.div (GoFloat.fin 1) (pdf w.std w.mean (Int.tmod e w.period)))
        (GoFloat.ofInt w.delay)))) g := by
  simp [ctlPeriod, hn, goMod, hP]

theorem ctlPeriod_reverse_normal (pdf : GoFloat → GoFloat → Int → GoFloat) (w : worker)
    (e : Int) (rnd : Nat) (g : NoiseState) (hn : w.p.timeDistribution = "reverse_normal")
    (hP : w.period ≠ 0) :
    ctlPeriod pdf w e rnd g = .slept (GoFloat.toInt64 (clampDelay
      (GoFloat.mul (pdf w.std w.mean (Int.tmod e w.period)) (GoFloat.ofInt w.delay)))) g := by
  simp [ctlPeriod, hn, goMod, hP]

theorem ctlPeriod_noise_normal (pdf : GoFloat → GoFloat → Int → GoFloat) (w : worker)
    (e : Int) (rnd : Nat) (g : NoiseState) (hn : w.p.timeDistribution = "noise_normal")
    (hP : w.period ≠ 0) :
    ctlPeriod pdf w e rnd g =
      match getnoiseRange rnd (Int.tmod e w.period) w.noiseRatio g with
      | .error _ => .panicked
      | .ok g1 =>
        .slept (GoFloat.toInt64 (GoFloat.add
          (clampDelay (GoFloat.mul (GoFloat.div (GoFloat.fin 1)
            (pdf w.std w.mean (Int.tmod e w.period))) (GoFloat.ofInt w.delay)))
          (GoFloat.mul (clampDelay (GoFloat.mul (GoFloat.div (GoFloat.fin 1)
            (pdf w.std w.mean (Int.tmod e w.period))) (GoFloat.ofInt w.delay)))
            g1.noiseRange))) g1 := by
  simp [ctlPeriod, hn, goMod, hP]

theorem ctlPeriod_step (pdf : GoFloat → GoFloat → Int → GoFloat) (w : worker) (e : Int)
    (rnd : Nat) (g : NoiseState) (hn : w.p.timeDistribution = "step") (he : 0 ≤ e)
    (hP : 0 < w.period) (hP61 : w.period < 2 ^ 61) :
    ctlPeriod pdf w e rnd g
      = .slept (wrap64 ((3 - e % w.period * 3 / w.period) * w.delay)) g := by
  have hm := goMod_eq e w.period he hP
  have hs := stepMultiplier_eq (e % w.period) w.period (Int.emod_nonneg _ (by omega))
    (Int.emod_lt_of_pos _ hP) hP61
  simp [ctlPeriod, hn, hm, hs]

theorem ctlPeriod_noise_step (pdf : GoFloat → GoFloat → Int → GoFloat) (w : worker) (e : Int)
    (rnd : Nat) (g : NoiseState) (hn : w.p.timeDistribution = "noise_step") (he : 0 ≤ e)
    (hP : 0 < w.period) (hP61 : w.period < 2 ^ 61) :
    ctlPeriod pdf w e rnd g =
      match getnoiseRange rnd (e % w.period) w.noiseRatio g with
      | .error _ => .panicked
      | .ok g1 =>
        .slept (GoFloat.toInt64 (GoFloat.add
          (GoFloat.mul (GoFloat.ofInt (3 - e % w.period * 3 / w.period)) (GoFloat.ofInt w.delay))
          (GoFloat.mul
            (GoFloat.mul (GoFloat.ofInt (3 - e % w.period * 3 / w.period))
              (GoFloat.ofInt w.delay)) g1.noiseRange))) g1 := by
  have hm := goMod_eq e w.period he hP
  have hs := stepMultiplier_eq (e % w.period) w.period (Int.emod_nonneg _ (by omega))
    (Int.emod_lt_of_pos _ hP) hP61
  simp [ctlPeriod, hn, hm, hs]

theorem ctlPeriod_failed_iff (pdf : GoFloat → GoFloat → Int → GoFloat) (w : worker) (e : Int)
    (rnd : Nat) (g : NoiseState) :
    ctlPeriod pdf w e rnd g = .failed ↔
      w.p.timeDistribution ∉ ["normal", "reverse_normal", "noise_normal", "step", "noise_step"] := by
  unfold ctlPeriod
  simp only [List.mem_cons, List.mem_singleton, List.not_mem_nil, or_false, not_or]
  constructor
  · intro h
    split_ifs at h with h1 h2 h3 h4 h5
    · cases hm : goMod e w.period <;> simp [hm] at h
    · cases hm : goMod e w.period <;> simp [hm] at h
    · cases hm : goMod e w.period with
      | error f => simp [hm] at h
      | ok t =>
        simp only [hm] at h
        cases hg : getnoiseRange rnd t w.noiseRatio g <;> simp [hg] at h
    · cases hm : goMod e w.period with
      | error f => simp [hm] at h
      | ok t =>
        simp only [hm] at h
        cases hs : stepMultiplier t w.period <;> simp [hs] at h
    · cases hm : goMod e w.period with
      | error f => simp [hm] at h
      | ok t =>
        simp only [hm] at h
        cases hs : stepMultiplier t w.period with
        | error f => simp [hs] at h
        | ok v =>
          simp only [hs] at h
          cases hg : getnoiseRange rnd t w.noiseRatio g <;> simp [hg] at h
    · exact ⟨h1, h2, h3, h4, h5⟩
  · rintro ⟨h1, h2, h3, h4, h5⟩
    simp [h1, h2, h3, h4, h5]

/-- Adding the product with `0.0` to a binary64 value leaves its `int64` conversion
unchanged. -/
theorem toInt64_add_mul_zero (t : GoFloat)
    (ht : ∀ q, t = GoFloat.fin q → GoFloat.round64 q = GoFloat.fin q) :
    GoFloat.toInt64 (GoFloat.add t (GoFloat.mul t (GoFloat.fin 0))) = GoFloat.toInt64 t := by
  cases t with
  | fin q =>
    have hq := ht q rfl
    simp only [GoFloat.mul, mul_zero, round64_zero, GoFloat.add, add_zero, hq]
  | inf s => simp [GoFloat.mul, GoFloat.add, GoFloat.toInt64]
  | nan => simp [GoFloat.mul, GoFloat.add, GoFloat.toInt64]

/-- A float product is a binary64 value. -/
theorem mul_binary64 (a b : GoFloat) (q : ℚ) (h : GoFloat.mul a b = GoFloat.fin q) :
    GoFloat.round64 q = GoFloat.fin q := by
  cases a with
  | fin x =>
    cases b with
    | fin y => exact round64_idem h
    | inf s => simp only [GoFloat.mul] at h; split_ifs at h
    | nan => simp [GoFloat.mul] at h
  | inf s =>
    cases b with
    | fin y => simp only [GoFloat.mul] at h; split_ifs at h
    | inf t => simp [GoFloat.mul] at h
    | nan => simp [GoFloat.mul] at h
  | nan => cases b <;> simp [GoFloat.mul] at h

/-- A clamped float product is a binary64 value. -/
theorem clampDelay_mul_binary64 (a b : GoFloat) (q : ℚ)
    (h : clampDelay (GoFloat.mul a b) = GoFloat.fin q) :
    GoFloat.round64 q = GoFloat.fin q := by
  unfold clampDelay at h
  split_ifs at h
  · rw [delayCeiling_eq] at h
    injection h with h
    rw [← h]
    have h3 := round64_intCast (3 * 10 ^ 10) (by norm_num)
    push_cast at h3
    rw [show (3 : ℚ) * 10 ^ 10 = 30000000000 by norm_num]
    exact h3
  · exact mul_binary64 a b q h

theorem getnoiseRange_zero_ratio (rnd : Nat) (t : Int) (g : NoiseState)
    (hg : g.noiseRange = GoFloat.fin 0 ∨ g.oldtime ≠ t) :
    ∃ g1, getnoiseRange rnd t (GoFloat.fin 0) g = .ok g1 ∧ g1.noiseRange = GoFloat.fin 0 := by
  unfold getnoiseRange
  by_cases h : t = g.oldtime
  · have h0 : g.noiseRange = GoFloat.fin 0 := by
      rcases hg with h0 | h0
      · exact h0
      · exact absurd h.symm h0
    simp [h, h0]
  · simp [h, GoFloat.eq]

/-- C7 (evaluation at the failing input): for the noise ratio `2^-15`, which lies strictly
between 0 and 1, a call of `getnoiseRange` at a position different from the remembered
one panics for every outcome of the draw, because the bound `int64(10000*2*ratio)` handed
to `rand.Int63n` is 0. -/
theorem getnoiseRange_small_ratio_panics (rnd : Nat) :
    (0 : ℚ) < 1 / 32768 ∧ (1 : ℚ) / 32768 < 1 ∧
    GoFloat.toInt64 (GoFloat.mul (GoFloat.fin 20000) (GoFloat.fin (1 / 32768))) = 0 ∧
    getnoiseRange rnd 0 (GoFloat.fin (1 / 32768)) initialNoise = .error .panic := by
  have hq : (0 : ℚ) ≤ 20000 * (1 / 32768) := by norm_num
  have hfl : ⌊(20000 : ℚ) * (1 / 32768)⌋ = 0 := by
    rw [Int.floor_eq_iff]; constructor <;> norm_num
  have hr : GoFloat.round64 (20000 * (1 / 32768)) = GoFloat.fin (20000 * (1 / 32768)) := by
    have h := round64_dyadic 625 (-10) (by norm_num) (by norm_num)
      (small_abs_lt_huge (by rw [abs_lt]; constructor <;> norm_num))
    have e : ((625 : Int) : ℚ) * 2 ^ (-10 : Int) = 20000 * (1 / 32768) := by norm_num
    rw [e] at h
    exact h
  have hN : GoFloat.toInt64 (GoFloat.mul (GoFloat.fin 20000) (GoFloat.fin (1 / 32768))) = 0 := by
    have hin : InRange64 0 := by decide
    simp only [GoFloat.mul, hr, GoFloat.toInt64, truncQ_of_nonneg hq, hfl, if_pos hin]
  refine ⟨by norm_num, by norm_num, hN, ?_⟩
  have h1 : GoFloat.eq (GoFloat.fin (1 / 32768)) (GoFloat.fin 1) = false := by
    simp [GoFloat.eq]
  have h0 : GoFloat.eq (GoFloat.fin (1 / 32768)) (GoFloat.fin 0) = false := by
    simp [GoFloat.eq]
  have hne : (0 : Int) ≠ initialNoise.oldtime := by decide
  unfold getnoiseRange
  rw [if_pos hne]
  simp only [h1, h0, hN, int63n, Bool.false_eq_true, if_false, le_refl, if_true]

/-- C5 (evaluation at the failing input): at period 4 and position 1 the step shape
sleeps 3 times the base delay (multiplier `3 - floor (3/4) = 3`), whereas
`round (3 - 3 * 1 / 4) = 2`; the quotient is taken on integers before the `0.5 +`
rounding idiom is applied. -/
theorem step_delay_at_quarter_period (pdf : GoFloat → GoFloat → Int → GoFloat) (rnd : Nat)
    (g : NoiseState) :
    ctlPeriod pdf (sampleWorker "step" true 5 1 1000 4 (GoFloat.fin 0)) 1 rnd g
      = .slept 3000 g ∧
    stepMultiplier 1 4 = .ok 3 ∧
    round ((3 : ℚ) - 3 * 1 / 4) = 2 := by
  refine ⟨?_, ?_, ?_⟩
  · rw [ctlPeriod_step pdf _ 1 rnd g rfl (by decide) (by decide) (by decide)]
    rfl
  · rw [stepMultiplier_eq 1 4 (by decide) (by decide) (by decide)]
    rfl
  · rw [round_eq, Int.floor_eq_iff]
    constructor <;> norm_num

/-- For the ratio 1 a call at a new position succeeds and stores one of the fractions
`-1/2, 0, 1/2, 1, 3/2`, all inside `[-1/2, 2]`. -/
theorem getnoiseRange_ratio_one (rnd : Nat) (newtime : Int) (g : NoiseState)
    (hne : newtime ≠ g.oldtime) :
    ∃ n : ℚ, getnoiseRange rnd newtime (GoFloat.fin 1) g = .ok ⟨newtime, GoFloat.fin n⟩ ∧
      -1 / 2 ≤ n ∧ n ≤ 2 := by
  have hr0 : 0 ≤ (rnd : Int) % 5 := Int.emod_nonneg _ (by omega)
  have hr1 : (rnd : Int) % 5 < 5 := Int.emod_lt_of_pos _ (by omega)
  have hwr : wrap64 ((rnd : Int) % 5 - 1) = (rnd : Int) % 5 - 1 :=
    wrap64_of_inRange (by unfold InRange64; omega)
  have hof : GoFloat.ofInt ((rnd : Int) % 5 - 1)
      = GoFloat.fin (((rnd : Int) % 5 - 1 : Int) : ℚ) :=
    ofInt_small _ (by rw [abs_lt]; constructor <;> omega)
  have hlo : ((-1 : Int) : ℚ) ≤ (((rnd : Int) % 5 - 1 : Int) : ℚ) := by
    exact_mod_cast (by omega : (-1 : Int) ≤ (rnd : Int) % 5 - 1)
  have hhi : (((rnd : Int) % 5 - 1 : Int) : ℚ) ≤ ((3 : Int) : ℚ) := by
    exact_mod_cast (by omega : (rnd : Int) % 5 - 1 ≤ 3)
  have hdiv : GoFloat.round64 ((((rnd : Int) % 5 - 1 : Int) : ℚ) / 2)
      = GoFloat.fin ((((rnd : Int) % 5 - 1 : Int) : ℚ) / 2) := by
    have e : (((rnd : Int) % 5 - 1 : Int) : ℚ) / 2
        = (((rnd : Int) % 5 - 1 : Int) : ℚ) * 2 ^ (-1 : Int) := by
      rw [zpow_neg_one]; ring
    rw [e]
    refine round64_dyadic _ (-1) (by rw [abs_lt]; constructor <;> omega) (by norm_num)
      (small_abs_lt_huge ?_)
    rw [← e, abs_lt]
    push_cast at hlo hhi ⊢
    constructor <;> linarith
  refine ⟨(((rnd : Int) % 5 - 1 : Int) : ℚ) / 2, ?_, ?_, ?_⟩
  · unfold getnoiseRange
    rw [if_pos hne]
    have h1 : GoFloat.eq (GoFloat.fin 1) (GoFloat.fin 1) = true := by simp [GoFloat.eq]
    have h5 : int63n rnd 5 = .ok ((rnd : Int) % 5) := by simp [int63n]
    have h2 : (2 : ℚ) ≠ 0 := by norm_num
    rw [h1, if_pos rfl, h5]
    simp only [hwr, hof]
    simp only [GoFloat.div, if_neg h2, hdiv]
  · push_cast at hlo ⊢
    linarith
  · push_cast at hhi ⊢
    linarith

theorem runLoop_pacer_failed (env : RunEnv) (fuel : Nat) (s : RunState)
    (hgate : s.w.p.normalDataInTime = true) (hguard : loopGuard s.w = true)
    (hfail : ctlPeriod env.pdf s.w (env.elapsedMin s.iters) (env.rnd s.iters) s.noise
      = .failed) :
    runLoop env (fuel + 1) s = some (.returned
      { s with iters := s.iters + 1,
               issued := s.issued + (if s.w.doBatch then s.w.batchSize else 1) }) := by
  simp only [runLoop, hguard, hgate, hfail, if_true]

/-- C4 (counterexample): the step shape with base delay `10^11` ns sleeps `3 * 10^11` ns,
ten times the ceiling. -/
theorem step_sleep_exceeds_ceiling :
    (ctlPeriod (fun _ _ _ => GoFloat.fin 1)
        (sampleWorker "step" true 5 1 (10 ^ 11) 1 (GoFloat.fin 0)) 0 0 initialNoise).sleptFor
      = some (3 * 10 ^ 11) ∧
    ¬ ((3 * 10 ^ 11 : Int) ≤ 3 * 10 ^ 10) := by
  constructor
  · rw [ctlPeriod_step _ _ 0 0 _ rfl (by decide) (by decide) (by decide)]
    rfl
  · decide

/-- C4 (amended): for the shapes normal and reverse_normal and a non-zero period, for
every density value, mean, standard deviation, base delay and position, `ctlPeriod`
sleeps at most the ceiling `3 * 10^10` ns; for noise_normal the ceiling bounds the delay
`t` before the noise term `t * noiseRange` is added to it. -/
theorem normal_sleep_clamped (pdf : GoFloat → GoFloat → Int → GoFloat) (w : worker)
    (e : Int) (rnd : Nat) (g : NoiseState) (hP : w.period ≠ 0) :
    (w.p.timeDistribution = "normal" ∨ w.p.timeDistribution = "reverse_normal" →
      ∃ d, ctlPeriod pdf w e rnd g = .slept d g ∧ d ≤ 3 * 10 ^ 10) ∧
    (w.p.timeDistribution = "noise_normal" →
      ∀ d g1, ctlPeriod pdf w e rnd g = .slept d g1 →
        ∃ t, GoFloat.toInt64 t ≤ 3 * 10 ^ 10 ∧
          d = GoFloat.toInt64 (GoFloat.add t (GoFloat.mul t g1.noiseRange))) := by
  constructor
  · rintro (hn | hn)
    · exact ⟨_, ctlPeriod_normal pdf w e rnd g hn hP, toInt64_clampDelay_le _⟩
    · exact ⟨_, ctlPeriod_reverse_normal pdf w e rnd g hn hP, toInt64_clampDelay_le _⟩
  · intro hn d g1 h
    rw [ctlPeriod_noise_normal pdf w e rnd g hn hP] at h
    cases hg : getnoiseRange rnd (Int.tmod e w.period) w.noiseRatio g with
    | error f => simp [hg] at h
    | ok g2 =>
      simp only [hg, CtlOutcome.slept.injEq] at h
      obtain ⟨hd, hg1⟩ := h
      subst hg1
      exact ⟨_, toInt64_clampDelay_le _, hd.symm⟩

/-- Witness of C4 (amended): the normal shape with density 1 and base delay `10^11`. -/
theorem normal_sleep_clamped_witness :
    ∃ d, ctlPeriod (fun _ _ _ => GoFloat.fin 1)
        (sampleWorker "normal" true 5 1 (10 ^ 11) 1 (GoFloat.fin 0)) 0 0 initialNoise
          = .slept d initialNoise ∧ d ≤ 3 * 10 ^ 10 :=
  (normal_sleep_clamped (fun _ _ _ => GoFloat.fin 1)
    (sampleWorker "normal" true 5 1 (10 ^ 11) 1 (GoFloat.fin 0)) 0 0 initialNoise
    (by decide)).1 (Or.inl rfl)

/-- C6 (counterexample): with pacing enabled and the distribution name left at its
default `none`, `ctlPeriod` returns the error, and a worker with quota 5 returns from the
loop after its first operation. -/
theorem none_is_not_a_shape :
    ctlPeriod quietEnv.pdf (sampleWorker "none" true 5 1 1000 4 (GoFloat.fin 0)) 0 0
        initialNoise = .failed ∧
    ∃ s, runLoop quietEnv 10
        ⟨sampleWorker "none" true 5 1 1000 4 (GoFloat.fin 0), initialNoise, 0, 0, 0⟩
          = some (.returned s) ∧ s.iters = 1 ∧ s.issued = 1 ∧ s.w.opCount = 5 := by
  have hf : ∀ pdf e rnd g, ctlPeriod pdf (sampleWorker "none" true 5 1 1000 4 (GoFloat.fin 0))
      e rnd g = .failed := by
    intro pdf e rnd g
    rw [ctlPeriod_failed_iff]
    decide
  refine ⟨hf _ _ _ _, _, runLoop_pacer_failed quietEnv 9 _ rfl (by decide) (hf _ _ _ _),
    rfl, rfl, rfl⟩

/-- C6 (amended): `ctlPeriod` returns the distribution-name error exactly when the
configured name is not one of the five shape names normal, reverse_normal, noise_normal,
step, noise_step; with pacing enabled the loop then returns at once, the operation of
the current iteration being the last one issued. -/
theorem ctlPeriod_error_iff_not_shape (env : RunEnv) (s : RunState) (fuel : Nat) :
    (ctlPeriod env.pdf s.w (env.elapsedMin s.iters) (env.rnd s.iters) s.noise = .failed ↔
      s.w.p.timeDistribution ∉
        ["normal", "reverse_normal", "noise_normal", "step", "noise_step"]) ∧
    (s.w.p.normalDataInTime = true → loopGuard s.w = true →
      s.w.p.timeDistribution ∉
        ["normal", "reverse_normal", "noise_normal", "step", "noise_step"] →
      runLoop env (fuel + 1) s = some (.returned
        { s with iters := s.iters + 1,
                 issued := s.issued + (if s.w.doBatch then s.w.batchSize else 1) })) := by
  refine ⟨ctlPeriod_failed_iff _ _ _ _ _, ?_⟩
  intro hgate hguard hname
  exact runLoop_pacer_failed env fuel s hgate hguard
    ((ctlPeriod_failed_iff _ _ _ _ _).mpr hname)

/-- Witness of C6 (amended): the name `bogus` with quota 5. -/
theorem ctlPeriod_error_iff_not_shape_witness :
    runLoop quietEnv 3
        ⟨sampleWorker "bogus" true 5 1 1000 4 (GoFloat.fin 0), initialNoise, 0, 0, 0⟩
      = some (.returned
        ⟨sampleWorker "bogus" true 5 1 1000 4 (GoFloat.fin 0), initialNoise, 1, 1, 0⟩) :=
  (ctlPeriod_error_iff_not_shape quietEnv
    ⟨sampleWorker "bogus" true 5 1 1000 4 (GoFloat.fin 0), initialNoise, 0, 0, 0⟩ 2).2
    rfl (by decide) (by decide)

theorem mul_ofInt_small (v d : Int) (hv : |v| < 2 ^ 53) (hd : |d| < 2 ^ 53)
    (hvd : |v * d| < 2 ^ 53) :
    GoFloat.mul (GoFloat.ofInt v) (GoFloat.ofInt d) = GoFloat.fin ((v * d : Int) : ℚ) := by
  rw [ofInt_small v hv, ofInt_small d hd]
  have h := round64_intCast (v * d) hvd
  push_cast at h ⊢
  simp only [GoFloat.mul]
  exact h

theorem sleptFor_noise_step_zero (pdf : GoFloat → GoFloat → Int → GoFloat) (w : worker)
    (e : Int) (rnd : Nat) (g : NoiseState) (hn : w.p.timeDistribution = "noise_step")
    (hr : w.noiseRatio = GoFloat.fin 0) (he : 0 ≤ e) (hP : 0 < w.period)
    (hP61 : w.period < 2 ^ 61) (hd : -(2 ^ 53) < 3 * w.delay ∧ 3 * w.delay < 2 ^ 53)
    (hg : g.noiseRange = GoFloat.fin 0 ∨ g.oldtime ≠ e % w.period) :
    (ctlPeriod pdf w e rnd g).sleptFor
      = some ((3 - e % w.period * 3 / w.period) * w.delay) := by
  rw [ctlPeriod_noise_step pdf w e rnd g hn he hP hP61, hr]
  obtain ⟨g1, hg1, hz⟩ := getnoiseRange_zero_ratio rnd (e % w.period) g hg
  rw [hg1]
  simp only [CtlOutcome.sleptFor, hz]
  rw [toInt64_add_mul_zero _ (fun q hq => mul_binary64 _ _ q hq)]
  have h0 : 0 ≤ e % w.period := Int.emod_nonneg _ (by omega)
  have h1 : e % w.period < w.period := Int.emod_lt_of_pos _ hP
  have hk0 : 0 ≤ e % w.period * 3 / w.period := Int.ediv_nonneg (by omega) (by omega)
  have hk2 : e % w.period * 3 / w.period < 3 := Int.ediv_lt_of_lt_mul (by omega) (by omega)
  generalize e % w.period * 3 / w.period = k at hk0 hk2
  have hk : k = 0 ∨ k = 1 ∨ k = 2 := by omega
  have hvd : |(3 - k) * w.delay| < 2 ^ 53 := by
    rw [abs_lt]
    rcases hk with rfl | rfl | rfl <;> constructor <;> omega
  have hin : InRange64 ((3 - k) * w.delay) := by
    rw [abs_lt] at hvd
    unfold InRange64
    constructor <;> omega
  rw [mul_ofInt_small (3 - k) w.delay (by rw [abs_lt]; constructor <;> omega)
    (by rw [abs_lt]; constructor <;> omega) hvd, toInt64_intCast _ hin]

theorem sleptFor_step (pdf : GoFloat → GoFloat → Int → GoFloat) (w : worker)
    (e : Int) (rnd : Nat) (g : NoiseState) (hn : w.p.timeDistribution = "step")
    (he : 0 ≤ e) (hP : 0 < w.period) (hP61 : w.period < 2 ^ 61)
    (hd : InRange64 (3 * w.delay)) :
    (ctlPeriod pdf w e rnd g).sleptFor
      = some ((3 - e % w.period * 3 / w.period) * w.delay) := by
  rw [ctlPeriod_step pdf w e rnd g hn he hP hP61]
  have h0 : 0 ≤ e % w.period := Int.emod_nonneg _ (by omega)
  have h1 : e % w.period < w.period := Int.emod_lt_of_pos _ hP
  have hk0 : 0 ≤ e % w.period * 3 / w.period := Int.ediv_nonneg (by omega) (by omega)
  have hk2 : e % w.period * 3 / w.period < 3 := Int.ediv_lt_of_lt_mul (by omega) (by omega)
  generalize e % w.period * 3 / w.period = k at hk0 hk2
  have hin : InRange64 ((3 - k) * w.delay) := by
    unfold InRange64 at hd ⊢
    have hk : k = 0 ∨ k = 1 ∨ k = 2 := by omega
    rcases hk with rfl | rfl | rfl <;> omega
  simp only [CtlOutcome.sleptFor, wrap64_of_inRange hin]

/-- C8 (counterexample): with noise ratio 0 and a noise memo that remembers the current
position with the fraction 1/2 (stored by an earlier call with ratio 1), noise_step
sleeps 9 ns where step sleeps 6 ns. -/
theorem stale_noise_breaks_zero_ratio :
    getnoiseRange 2 0 (GoFloat.fin 1) initialNoise = .ok ⟨0, GoFloat.fin (1 / 2)⟩ ∧
    (ctlPeriod (fun _ _ _ => GoFloat.fin 1)
      (sampleWorker "noise_step" true 5 1 2 1 (GoFloat.fin 0)) 0 0
      ⟨0, GoFloat.fin (1 / 2)⟩).sleptFor = some 9 ∧
    (ctlPeriod (fun _ _ _ => GoFloat.fin 1)
      (sampleWorker "step" true 5 1 2 1 (GoFloat.fin 0)) 0 0
      ⟨0, GoFloat.fin (1 / 2)⟩).sleptFor = some 6 := by
  have hsmall : ∀ n : Int, |n| < 2 ^ 53 → GoFloat.round64 (n : ℚ) = GoFloat.fin (n : ℚ) :=
    round64_intCast
  have hhalf : GoFloat.round64 (1 / 2) = GoFloat.fin (1 / 2) := by
    have h := round64_dyadic 1 (-1) (by norm_num) (by norm_num)
      (small_abs_lt_huge (by rw [abs_lt]; constructor <;> norm_num))
    have e : ((1 : Int) : ℚ) * 2 ^ (-1 : Int) = 1 / 2 := by norm_num
    rw [e] at h; exact h
  refine ⟨?_, ?_, ?_⟩
  · have hw : wrap64 (2 % 5 - 1) = 1 := by decide
    have hne : (0 : Int) ≠ initialNoise.oldtime := by decide
    have h1 : GoFloat.eq (GoFloat.fin 1) (GoFloat.fin 1) = true := by simp [GoFloat.eq]
    have h5 : int63n 2 5 = .ok (2 % 5) := by simp [int63n]
    have h2 : (2 : ℚ) ≠ 0 := by norm_num
    have ho : GoFloat.ofInt 1 = GoFloat.fin 1 := by
      have := ofInt_small 1 (by norm_num)
      simpa using this
    unfold getnoiseRange
    rw [if_pos hne, h1, if_pos rfl, h5]
    simp only [hw, ho]
    simp only [GoFloat.div, if_neg h2, hhalf]
  · rw [ctlPeriod_noise_step _ _ 0 0 _ rfl (by decide) (by decide) (by decide)]
    have hpos : (0 : Int) % (sampleWorker "noise_step" true 5 1 2 1 (GoFloat.fin 0)).period
        = 0 := by decide
    have hmul : 3 - (0 : Int) * 3
        / (sampleWorker "noise_step" true 5 1 2 1 (GoFloat.fin 0)).period = 3 := by decide
    have hg : getnoiseRange 0 0
        (sampleWorker "noise_step" true 5 1 2 1 (GoFloat.fin 0)).noiseRatio
        ⟨0, GoFloat.fin (1 / 2)⟩ = .ok ⟨0, GoFloat.fin (1 / 2)⟩ := by
      simp [getnoiseRange]
    rw [hpos, hmul, hg]
    have hprod : GoFloat.mul (GoFloat.ofInt 3)
        (GoFloat.ofInt (sampleWorker "noise_step" true 5 1 2 1 (GoFloat.fin 0)).delay)
        = GoFloat.fin 6 := by
      have := mul_ofInt_small 3 2 (by norm_num) (by norm_num) (by norm_num)
      rw [show (sampleWorker "noise_step" true 5 1 2 1 (GoFloat.fin 0)).delay = 2 from rfl,
        this]
      norm_num
    have h3 : GoFloat.round64 (6 * (1 / 2)) = GoFloat.fin 3 := by
      have := hsmall 3 (by norm_num)
      rw [show (6 : ℚ) * (1 / 2) = ((3 : Int) : ℚ) by norm_num, this]
      norm_num
    have h9 : GoFloat.round64 (6 + 3) = GoFloat.fin ((9 : Int) : ℚ) := by
      have := hsmall 9 (by norm_num)
      rw [show (6 : ℚ) + 3 = ((9 : Int) : ℚ) by norm_num, this]
    rw [hprod]
    simp only [CtlOutcome.sleptFor, GoFloat.mul, h3, GoFloat.add, h9]
    rw [toInt64_intCast 9 (by decide)]
  · rw [sleptFor_step _ _ 0 0 _ rfl (by decide) (by decide) (by decide) (by decide)]
    rfl

/-- C8 (amended): for noise ratio 0 and a noise memo whose stored fraction is 0 or whose
remembered position differs from the current one, noise_normal sleeps exactly what normal
sleeps, and (elapsed time non-negative, period in `1 .. 2^61 - 1`, three times the base
delay below `2^53` in magnitude, so that the float64 product is exact) noise_step sleeps
exactly what step sleeps. -/
theorem zero_ratio_noise_vanishes (pdf : GoFloat → GoFloat → Int → GoFloat) (w : worker)
    (e : Int) (rnd : Nat) (g : NoiseState) (hr : w.noiseRatio = GoFloat.fin 0)
    (hg : g.noiseRange = GoFloat.fin 0 ∨ g.oldtime ≠ Int.tmod e w.period) :
    (ctlPeriod pdf (withDistribution w "noise_normal") e rnd g).sleptFor
      = (ctlPeriod pdf (withDistribution w "normal") e rnd g).sleptFor ∧
    (0 ≤ e → 0 < w.period → w.period < 2 ^ 61 →
      -(2 ^ 53) < 3 * w.delay ∧ 3 * w.delay < 2 ^ 53 →
      (ctlPeriod pdf (withDistribution w "noise_step") e rnd g).sleptFor
        = (ctlPeriod pdf (withDistribution w "step") e rnd g).sleptFor) := by
  constructor
  · by_cases hP : w.period = 0
    · have h1 : ctlPeriod pdf (withDistribution w "noise_normal") e rnd g = .panicked := by
        simp [ctlPeriod, withDistribution, goMod, hP]
      have h2 : ctlPeriod pdf (withDistribution w "normal") e rnd g = .panicked := by
        simp [ctlPeriod, withDistribution, goMod, hP]
      rw [h1, h2]
    · rw [ctlPeriod_noise_normal pdf (withDistribution w "noise_normal") e rnd g rfl hP,
        ctlPeriod_normal pdf (withDistribution w "normal") e rnd g rfl hP]
      have hr' : (withDistribution w "noise_normal").noiseRatio = GoFloat.fin 0 := hr
      obtain ⟨g1, hg1, hz⟩ := getnoiseRange_zero_ratio rnd
        (Int.tmod e (withDistribution w "noise_normal").period) g hg
      rw [hr', hg1]
      simp only [CtlOutcome.sleptFor, hz]
      rw [toInt64_add_mul_zero _ (fun q hq => clampDelay_mul_binary64 _ _ q hq)]
      rfl
  · intro he hP hP61 hd
    have hg' : g.noiseRange = GoFloat.fin 0 ∨ g.oldtime ≠ e % w.period := by
      rw [Int.tmod_eq_emod he (by omega)] at hg
      exact hg
    rw [sleptFor_noise_step_zero pdf (withDistribution w "noise_step") e rnd g rfl hr he hP
        hP61 hd hg',
      sleptFor_step pdf (withDistribution w "step") e rnd g rfl he hP hP61
        (by
          show InRange64 (3 * w.delay)
          unfold InRange64; have := hd.1; have := hd.2; constructor <;> omega)]
    rfl

/-- Witness of C8 (amended): the fresh noise memo, period 4, position 1, base delay 1000. -/
theorem zero_ratio_noise_vanishes_witness :
    (ctlPeriod (fun _ _ _ => GoFloat.fin 1)
        (withDistribution (sampleWorker "none" true 5 1 1000 4 (GoFloat.fin 0)) "noise_step")
        1 0 initialNoise).sleptFor
      = (ctlPeriod (fun _ _ _ => GoFloat.fin 1)
        (withDistribution (sampleWorker "none" true 5 1 1000 4 (GoFloat.fin 0)) "step")
        1 0 initialNoise).sleptFor :=
  (zero_ratio_noise_vanishes (fun _ _ _ => GoFloat.fin 1)
    (sampleWorker "none" true 5 1 1000 4 (GoFloat.fin 0)) 1 0 initialNoise rfl
    (Or.inl rfl)).2 (by decide) (by decide) (by decide) (by decide)

/-- The float64 product of noise_step is rounded: for the base delay `2^52 + 1`, period 4,
position 0, noise ratio 0 and the fresh noise memo, noise_step sleeps 13510798882111492 ns
(the product `3 * (2^52 + 1)` lies half-way between two binary64 values and is rounded to
the even one), whereas step, which multiplies in int64, sleeps 13510798882111491 ns. -/
theorem noise_step_product_is_rounded :
    (ctlPeriod (fun _ _ _ => GoFloat.fin 1)
      (sampleWorker "noise_step" true 5 1 4503599627370497 4 (GoFloat.fin 0)) 0 0
      initialNoise).sleptFor = some 13510798882111492 ∧
    (ctlPeriod (fun _ _ _ => GoFloat.fin 1)
      (sampleWorker "step" true 5 1 4503599627370497 4 (GoFloat.fin 0)) 0 0
      initialNoise).sleptFor = some 13510798882111491 := by
  constructor
  · rw [ctlPeriod_noise_step _ _ 0 0 _ rfl (by decide) (by decide) (by decide)]
    have hr : (sampleWorker "noise_step" true 5 1 4503599627370497 4 (GoFloat.fin 0)).noiseRatio
        = GoFloat.fin 0 := rfl
    obtain ⟨g1, hg1, hz⟩ := getnoiseRange_zero_ratio 0
      ((0 : Int) % (sampleWorker "noise_step" true 5 1 4503599627370497 4
        (GoFloat.fin 0)).period) initialNoise (Or.inl rfl)
    rw [hr, hg1]
    simp only [CtlOutcome.sleptFor, hz]
    rw [toInt64_add_mul_zero _ (fun q hq => mul_binary64 _ _ q hq)]
    have hmul : 3 - (0 : Int) % (sampleWorker "noise_step" true 5 1 4503599627370497 4
        (GoFloat.fin 0)).period * 3
        / (sampleWorker "noise_step" true 5 1 4503599627370497 4 (GoFloat.fin 0)).period
        = 3 := by decide
    have hdel : (sampleWorker "noise_step" true 5 1 4503599627370497 4 (GoFloat.fin 0)).delay
        = 4503599627370497 := rfl
    have h3 : GoFloat.ofInt 3 = GoFloat.fin 3 := by
      simpa using ofInt_small 3 (by norm_num)
    have hd : GoFloat.ofInt 4503599627370497 = GoFloat.fin 4503599627370497 := by
      simpa using ofInt_small 4503599627370497 (by norm_num)
    have hround : GoFloat.round64 (3 * 4503599627370497)
        = GoFloat.fin ((13510798882111492 : Int) : ℚ) := by
      have := round64_eval_tie (q := 3 * 4503599627370497) 1 6755399441055745
        (by norm_num [abs_of_pos]) (by norm_num [abs_of_pos]) (by norm_num) (by norm_num)
        (small_abs_lt_huge (by rw [abs_lt]; constructor <;> norm_num))
      rw [this]; norm_num
    rw [hmul, hdel, h3, hd]
    simp only [GoFloat.mul]
    rw [hround, toInt64_intCast _ (by decide)]
  · rw [sleptFor_step _ _ 0 0 _ rfl (by decide) (by decide) (by decide) (by decide)]
    rfl

theorem finishedCount_snoc (f : Nat → Bool) : ∀ (m i : Nat),
    finishedCount f i (m + 1) = finishedCount f i m + (if f (i + m) then 1 else 0)
  | 0, i => by simp [finishedCount]
  | m + 1, i => by
    have ih := finishedCount_snoc f m (i + 1)
    have e : i + 1 + m = i + (m + 1) := by omega
    rw [e] at ih
    rw [finishedCount, ih, finishedCount]
    omega

theorem finishedCount_compl (f : Nat → Bool) : ∀ (m i : Nat),
    finishedCount f i m + finishedCount (fun j => !f j) i m = m
  | 0, _ => rfl
  | m + 1, i => by
    have ih := finishedCount_compl f m (i + 1)
    simp only [finishedCount]
    by_cases h : f i = true
    · simp only [h, Bool.not_true, Bool.false_eq_true, if_true, if_false]; omega
    · have h' : f i = false := by simpa using h
      simp only [h', Bool.not_false, Bool.false_eq_true, if_true, if_false]; omega

theorem afterIteration_iters (env : RunEnv) (s : RunState) (g : NoiseState) :
    (afterIteration env s g).iters = s.iters + 1 := by
  unfold afterIteration; split_ifs <;> rfl

theorem afterIteration_issued (env : RunEnv) (s : RunState) (g : NoiseState) :
    (afterIteration env s g).issued
      = s.issued + (if s.w.doBatch then s.w.batchSize else 1) := by
  unfold afterIteration; split_ifs <;> rfl

theorem afterIteration_opsDone (env : RunEnv) (s : RunState) (g : NoiseState) :
    (afterIteration env s g).w.opsDone
      = if env.warmUpFinished s.iters then
          wrap64 (s.w.opsDone + (if s.w.doBatch then s.w.batchSize else 1))
        else s.w.opsDone := by
  unfold afterIteration; split_ifs <;> rfl

theorem afterIteration_worker (env : RunEnv) (s : RunState) (g : NoiseState) :
    (afterIteration env s g).w
      = { s.w with opsDone := (afterIteration env s g).w.opsDone } := by
  unfold afterIteration; split_ifs <;> rfl

theorem afterIteration_opCount (env : RunEnv) (s : RunState) (g : NoiseState) :
    (afterIteration env s g).w.opCount = s.w.opCount := by
  unfold afterIteration; split_ifs <;> rfl

theorem afterIteration_doBatch (env : RunEnv) (s : RunState) (g : NoiseState) :
    (afterIteration env s g).w.doBatch = s.w.doBatch := by
  unfold afterIteration; split_ifs <;> rfl

theorem afterIteration_batchSize (env : RunEnv) (s : RunState) (g : NoiseState) :
    (afterIteration env s g).w.batchSize = s.w.batchSize := by
  unfold afterIteration; split_ifs <;> rfl

theorem afterIteration_props (env : RunEnv) (s : RunState) (g : NoiseState) :
    (afterIteration env s g).w.p = s.w.p := by
  unfold afterIteration; split_ifs <;> rfl

/-- One iteration of the loop in which the pacer raises no error and the context is not
cancelled. -/
theorem runLoop_succ (env : RunEnv) (fuel : Nat) (s : RunState) (d : Int) (g : NoiseState)
    (hguard : loopGuard s.w = true)
    (hpace : (if s.w.p.normalDataInTime then
        ctlPeriod env.pdf s.w (env.elapsedMin s.iters) (env.rnd s.iters) s.noise
      else CtlOutcome.slept 0 s.noise) = .slept d g)
    (hcan : env.cancelled s.iters = false) :
    runLoop env (fuel + 1) s = runLoop env fuel (afterIteration env s g) := by
  simp only [runLoop, hguard, if_true, hpace, hcan, Bool.false_eq_true, if_false]
  unfold afterIteration
  split_ifs <;> rfl

theorem runLoop_done (env : RunEnv) (fuel : Nat) (s : RunState)
    (hguard : loopGuard s.w = false) :
    runLoop env (fuel + 1) s = some (.returned s) := by
  simp only [runLoop, hguard, Bool.false_eq_true, if_false]

/-- The loop of an unbatched, unpaced, never cancelled worker with quota `q`: from a state
that needs `m` more iterations to see its `q`-th finished answer, it returns after exactly
`m` iterations. -/
theorem runLoop_unbatched (env : RunEnv) (q : Int) (hq1 : 1 ≤ q) (hq : q < 2 ^ 63)
    (hcan : ∀ i, env.cancelled i = false) :
    ∀ (m : Nat) (s : RunState) (fuel : Nat),
      s.w.opCount = q → s.w.doBatch = false → s.w.p.normalDataInTime = false →
      0 ≤ s.w.opsDone →
      s.w.opsDone + (finishedCount env.warmUpFinished s.iters m : Int) = q →
      (0 < m → env.warmUpFinished (s.iters + m - 1) = true) →
      m < fuel →
      ∃ s', runLoop env fuel s = some (.returned s') ∧ s'.iters = s.iters + m ∧
        s'.issued = s.issued + m ∧ s'.w.opsDone = q ∧ s'.w.opCount = q := by
  intro m
  induction m with
  | zero =>
    intro s fuel hop _ _ _ hcount _ hfuel
    obtain ⟨f, rfl⟩ : ∃ f, fuel = f + 1 := ⟨fuel - 1, by omega⟩
    simp only [finishedCount, Nat.cast_zero, add_zero] at hcount
    have hguard : loopGuard s.w = false := by
      simp only [loopGuard, hop, hcount]
      have : ¬ q = 0 := by omega
      simp [this]
    exact ⟨s, runLoop_done env f s hguard, by simp, by simp, hcount, hop⟩
  | succ m ih =>
    intro s fuel hop hb hgate h0 hcount hlast hfuel
    obtain ⟨f, rfl⟩ : ∃ f, fuel = f + 1 := ⟨fuel - 1, by omega⟩
    have hlast' : env.warmUpFinished (s.iters + m) = true := by
      have := hlast (by omega)
      have e : s.iters + (m + 1) - 1 = s.iters + m := by omega
      rwa [e] at this
    have hsn := finishedCount_snoc env.warmUpFinished m s.iters
    rw [hlast', if_pos rfl] at hsn
    have hlt : s.w.opsDone < q := by
      rw [hsn] at hcount
      push_cast at hcount
      omega
    have hguard : loopGuard s.w = true := by
      simp only [loopGuard, hop]
      simp [hlt]
    have hstep : finishedCount env.warmUpFinished s.iters (m + 1)
        = (if env.warmUpFinished s.iters then 1 else 0)
          + finishedCount env.warmUpFinished (s.iters + 1) m := rfl
    rw [hstep] at hcount
    have hpace : (if s.w.p.normalDataInTime then
        ctlPeriod env.pdf s.w (env.elapsedMin s.iters) (env.rnd s.iters) s.noise
      else CtlOutcome.slept 0 s.noise) = .slept 0 s.noise := by
      rw [hgate]; rfl
    have hdone : (afterIteration env s s.noise).w.opsDone
        = s.w.opsDone + (if env.warmUpFinished s.iters then 1 else 0) := by
      rw [afterIteration_opsDone, hb]
      by_cases hw : env.warmUpFinished s.iters = true
      · have hr : wrap64 (s.w.opsDone + 1) = s.w.opsDone + 1 :=
          wrap64_of_inRange (by unfold InRange64; omega)
        simp only [hw, if_true, Bool.false_eq_true, if_false, hr]
      · simp only [hw, Bool.false_eq_true, if_false, add_zero]
    obtain ⟨s', hrun, hit, hiss, hfin, hquota⟩ := ih (afterIteration env s s.noise) f
      (by rw [afterIteration_opCount]; exact hop)
      (by rw [afterIteration_doBatch]; exact hb)
      (by rw [afterIteration_props]; exact hgate)
      (by rw [hdone]; split_ifs <;> omega)
      (by
        rw [hdone, afterIteration_iters]
        push_cast at hcount
        split_ifs at hcount ⊢ <;> omega)
      (fun _ => by
        rw [afterIteration_iters]
        have e : s.iters + 1 + m - 1 = s.iters + m := by omega
        rw [e]; exact hlast')
      (by omega)
    refine ⟨s', ?_, ?_, ?_, hfin, hquota⟩
    · rw [runLoop_succ env f s 0 s.noise hguard hpace (hcan _)]
      exact hrun
    · rw [hit, afterIteration_iters]; omega
    · rw [hiss, afterIteration_issued, hb]
      simp only [Bool.false_eq_true, if_false]
      push_cast; omega

theorem ceil_div_eq (q c : Int) (hc : 0 < c) : ⌈(q : ℚ) / (c : ℚ)⌉ = (q + c - 1) / c := by
  have hcq : (0 : ℚ) < c := by exact_mod_cast hc
  have h1 : (q + c - 1) / c * c ≤ q + c - 1 := Int.ediv_mul_le _ (by omega)
  have h2 : q + c - 1 < ((q + c - 1) / c + 1) * c := Int.lt_ediv_add_one_mul_self _ hc
  rw [Int.ceil_eq_iff]
  constructor
  · rw [lt_div_iff₀ hcq]
    have : ((q + c - 1) / c - 1) * c < q := by linarith
    exact_mod_cast this
  · rw [div_le_iff₀ hcq]
    have : q ≤ (q + c - 1) / c * c := by linarith
    exact_mod_cast this

/-- The loop of a never cancelled worker once warm-up is over, the pacer raising no error:
from a state that needs `k` more iterations of `c` operations to reach the quota `q`, it
returns after exactly `k` iterations. -/
theorem runLoop_batches (env : RunEnv) (q c : Int) (hq1 : 1 ≤ q) (hc1 : 1 ≤ c)
    (hfit : q + c ≤ 2 ^ 63) (hwarm : ∀ i, env.warmUpFinished i = true)
    (hcan : ∀ i, env.cancelled i = false) :
    ∀ (k : Nat) (s : RunState) (fuel : Nat),
      s.w.opCount = q → (if s.w.doBatch then s.w.batchSize else 1) = c →
      (∀ (od : Int) (i : Nat) (g : NoiseState), ∃ d g1,
        (if s.w.p.normalDataInTime then
          ctlPeriod env.pdf { s.w with opsDone := od } (env.elapsedMin i) (env.rnd i) g
        else CtlOutcome.slept 0 g) = .slept d g1) →
      0 ≤ s.w.opsDone →
      q ≤ s.w.opsDone + k * c →
      (0 < k → s.w.opsDone + ((k : Int) - 1) * c < q) →
      k < fuel →
      ∃ s', runLoop env fuel s = some (.returned s') ∧ s'.iters = s.iters + k ∧
        s'.issued = s.issued + k * c ∧ s'.w.opsDone = s.w.opsDone + k * c := by
  intro k
  induction k with
  | zero =>
    intro s fuel hop _ _ _ hge _ hfuel
    obtain ⟨f, rfl⟩ : ∃ f, fuel = f + 1 := ⟨fuel - 1, by omega⟩
    simp only [Nat.cast_zero, zero_mul, add_zero] at hge
    have hguard : loopGuard s.w = false := by
      simp only [loopGuard, hop]
      have h1 : ¬ q = 0 := by omega
      have h2 : ¬ s.w.opsDone < q := by omega
      simp [h1, h2]
    exact ⟨s, runLoop_done env f s hguard, by simp, by simp, by simp⟩
  | succ k ih =>
    intro s fuel hop hcs hpace h0 hge hlt hfuel
    obtain ⟨f, rfl⟩ : ∃ f, fuel = f + 1 := ⟨fuel - 1, by omega⟩
    have hkc : (0 : Int) ≤ (k : Int) * c := mul_nonneg (Int.ofNat_nonneg k) (by omega)
    have hlt' : s.w.opsDone + (k : Int) * c < q := by
      have := hlt (by omega)
      push_cast at this
      linarith
    have hge' : q ≤ s.w.opsDone + (k : Int) * c + c := by
      push_cast at hge
      linarith
    have hguard : loopGuard s.w = true := by
      simp only [loopGuard, hop]
      have h2 : s.w.opsDone < q := by linarith
      simp [h2]
    obtain ⟨d, g1, hp⟩ := hpace s.w.opsDone s.iters s.noise
    have hdone : (afterIteration env s g1).w.opsDone = s.w.opsDone + c := by
      rw [afterIteration_opsDone, hwarm, if_pos rfl, hcs]
      exact wrap64_of_inRange (by unfold InRange64; constructor <;> linarith)
    have hwk := afterIteration_worker env s g1
    obtain ⟨s', hrun, hit, hiss, hfin⟩ := ih (afterIteration env s g1) f
      (by rw [afterIteration_opCount]; exact hop)
      (by rw [afterIteration_doBatch, afterIteration_batchSize]; exact hcs)
      (by
        intro od i g
        obtain ⟨d', g', h'⟩ := hpace od i g
        refine ⟨d', g', ?_⟩
        rw [afterIteration_props, hwk]
        exact h')
      (by rw [hdone]; linarith)
      (by rw [hdone]; linarith)
      (fun _ => by rw [hdone]; linarith)
      (by omega)
    refine ⟨s', ?_, ?_, ?_, ?_⟩
    · rw [runLoop_succ env f s d g1 hguard hp (hcan _)]
      exact hrun
    · rw [hit, afterIteration_iters]; omega
    · rw [hiss, afterIteration_issued, hcs]; push_cast; ring
    · rw [hfin, hdone]; push_cast; ring

/-- C3 (counterexample): a worker with quota 1 whose first operation runs while warm-up
is still in progress executes 2 operations before the loop stops. -/
theorem warmup_operations_not_counted :
    ∃ s, runLoop { quietEnv with warmUpFinished := fun i => decide (1 ≤ i) } 5
        ⟨sampleWorker "none" false 1 1 0 1 (GoFloat.fin 0), initialNoise, 0, 0, 0⟩
          = some (.returned s) ∧
      s.w.opCount = 1 ∧ s.iters = 2 ∧ s.issued = 2 ∧ s.w.opsDone = 1 := by
  obtain ⟨s, hrun, hit, hiss, hdone, hquota⟩ :=
    runLoop_unbatched { quietEnv with warmUpFinished := fun i => decide (1 ≤ i) } 1
      (by decide) (by decide) (fun _ => rfl) 2
      ⟨sampleWorker "none" false 1 1 0 1 (GoFloat.fin 0), initialNoise, 0, 0, 0⟩ 5
      rfl rfl rfl (by decide) (by decide) (fun _ => by decide) (by decide)
  exact ⟨s, hrun, hquota, hit, hiss, hdone⟩

/-- C3 (amended): for a bounded worker (quota `q >= 1`, one operation per iteration,
pacing disabled, never cancelled) the loop stops when the number of operations executed
with warm-up finished reaches `q`: if the `q`-th `true` answer of the warm-up check is
answer number `n`, the worker executes exactly `n` operations, that is `q` plus the
operations executed while warm-up was still in progress. -/
theorem run_stops_at_post_warmup_quota (env : RunEnv) (w : worker) (g : NoiseState)
    (q : Int) (n fuel : Nat) (hq1 : 1 ≤ q) (hq : q < 2 ^ 63) (hw : w.opCount = q)
    (h0 : w.opsDone = 0) (hb : w.doBatch = false) (hgate : w.p.normalDataInTime = false)
    (hcan : ∀ i, env.cancelled i = false)
    (hn : (finishedCount env.warmUpFinished 0 n : Int) = q)
    (hlast : env.warmUpFinished (n - 1) = true) (hfuel : n < fuel) :
    ∃ s, runLoop env fuel ⟨w, g, 0, 0, 0⟩ = some (.returned s) ∧
      s.iters = n ∧ s.issued = n ∧ s.w.opsDone = q ∧
      (n : Int) = q + finishedCount (fun i => !env.warmUpFinished i) 0 n := by
  obtain ⟨s, hrun, hit, hiss, hdone, _⟩ :=
    runLoop_unbatched env q hq1 hq hcan n ⟨w, g, 0, 0, 0⟩ fuel hw hb hgate
      (by show 0 ≤ w.opsDone; omega)
      (by show w.opsDone + (finishedCount env.warmUpFinished 0 n : Int) = q; omega)
      (fun _ => by
        show env.warmUpFinished (0 + n - 1) = true
        rw [Nat.zero_add]; exact hlast)
      hfuel
  refine ⟨s, hrun, ?_, ?_, hdone, ?_⟩
  · rw [hit]; show 0 + n = n; omega
  · rw [hiss]; show (0 : Int) + n = n; omega
  · have := finishedCount_compl env.warmUpFinished n 0
    omega

/-- Witness of C3 (amended): quota 2 with the answers false, true, false, true. -/
theorem run_stops_at_post_warmup_quota_witness :
    ∃ s, runLoop { quietEnv with warmUpFinished := fun i => decide (i % 2 = 1) } 9
        ⟨sampleWorker "none" false 2 1 0 1 (GoFloat.fin 0), initialNoise, 0, 0, 0⟩
          = some (.returned s) ∧
      s.iters = 4 ∧ s.issued = ((4 : Nat) : Int) ∧ s.w.opsDone = 2 ∧
      ((4 : Nat) : Int) = 2 + finishedCount (fun i => !decide (i % 2 = 1)) 0 4 :=
  run_stops_at_post_warmup_quota
    { quietEnv with warmUpFinished := fun i => decide (i % 2 = 1) }
    (sampleWorker "none" false 2 1 0 1 (GoFloat.fin 0)) initialNoise 2 4 9
    (by decide) (by decide) rfl rfl rfl rfl (fun _ => rfl) (by decide) (by decide)
    (by decide)

/-- C10: for a worker with quota `q >= 1` and `c` operations per iteration (`c = 1`
unbatched, `c = batchSize >= 2` batched; `q + c` within int64), when warm-up is finished
throughout, the pacer raises no error and the run is never cancelled, the loop returns
after exactly `ceil (q / c)` iterations with `opsDone = c * ceil (q / c)`, so
`q <= opsDone < q + c`, and it has issued exactly `opsDone` operations. -/
theorem run_iterations (env : RunEnv) (w : worker) (g : NoiseState) (q c : Int)
    (fuel : Nat) (hq1 : 1 ≤ q)
    (hc : (w.doBatch = false ∧ c = 1) ∨ (w.doBatch = true ∧ c = w.batchSize ∧ 2 ≤ c))
    (hfit : q + c ≤ 2 ^ 63) (hw : w.opCount = q) (h0 : w.opsDone = 0)
    (hwarm : ∀ i, env.warmUpFinished i = true) (hcan : ∀ i, env.cancelled i = false)
    (hpace : ∀ (od : Int) (i : Nat) (g0 : NoiseState), ∃ d g1,
      (if w.p.normalDataInTime then
        ctlPeriod env.pdf { w with opsDone := od } (env.elapsedMin i) (env.rnd i) g0
      else CtlOutcome.slept 0 g0) = .slept d g1)
    (hfuel : ⌈(q : ℚ) / (c : ℚ)⌉ < fuel) :
    ∃ s, runLoop env fuel ⟨w, g, 0, 0, 0⟩ = some (.returned s) ∧
      (s.iters : Int) = ⌈(q : ℚ) / (c : ℚ)⌉ ∧
      s.w.opsDone = c * ⌈(q : ℚ) / (c : ℚ)⌉ ∧
      q ≤ s.w.opsDone ∧ s.w.opsDone < q + c ∧ s.issued = s.w.opsDone := by
  have hc1 : 1 ≤ c := by
    rcases hc with ⟨_, h⟩ | ⟨_, _, h⟩ <;> omega
  have hcs : (if w.doBatch then w.batchSize else 1) = c := by
    rcases hc with ⟨hb, h⟩ | ⟨hb, h, _⟩
    · rw [hb, h]; rfl
    · rw [hb, h]; rfl
  rw [ceil_div_eq q c (by omega)] at hfuel ⊢
  have h1 : (q + c - 1) / c * c ≤ q + c - 1 := Int.ediv_mul_le _ (by omega)
  have h2 : q + c - 1 < ((q + c - 1) / c + 1) * c :=
    Int.lt_ediv_add_one_mul_self _ (by omega)
  have hK0 : 0 ≤ (q + c - 1) / c := Int.ediv_nonneg (by omega) (by omega)
  have hk : (((q + c - 1) / c).toNat : Int) = (q + c - 1) / c := Int.toNat_of_nonneg hK0
  obtain ⟨s, hrun, hit, hiss, hdone⟩ :=
    runLoop_batches env q c hq1 hc1 hfit hwarm hcan ((q + c - 1) / c).toNat
      ⟨w, g, 0, 0, 0⟩ fuel hw hcs hpace
      (by show 0 ≤ w.opsDone; omega)
      (by
        show q ≤ w.opsDone + (((q + c - 1) / c).toNat : Int) * c
        rw [hk, h0]; linarith)
      (fun _ => by
        show w.opsDone + ((((q + c - 1) / c).toNat : Int) - 1) * c < q
        rw [hk, h0]; linarith)
      (by omega)
  have hd : s.w.opsDone = c * ((q + c - 1) / c) := by
    rw [hdone]
    show w.opsDone + (((q + c - 1) / c).toNat : Int) * c = c * ((q + c - 1) / c)
    rw [hk, h0]; ring
  refine ⟨s, hrun, ?_, hd, ?_, ?_, ?_⟩
  · rw [hit]
    show ((0 + ((q + c - 1) / c).toNat : Nat) : Int) = (q + c - 1) / c
    push_cast
    rw [hk]; ring
  · rw [hd]; linarith
  · rw [hd]; linarith
  · rw [hiss, hd]
    show (0 : Int) + (((q + c - 1) / c).toNat : Int) * c = c * ((q + c - 1) / c)
    rw [hk]; ring

/-- Witness of C10: quota 5 in batches of 2, with the step pacer enabled: 3 iterations,
6 operations. -/
theorem run_iterations_witness :
    ∃ s, runLoop quietEnv 9
        ⟨sampleWorker "step" true 5 2 1000 4 (GoFloat.fin 0), initialNoise, 0, 0, 0⟩
          = some (.returned s) ∧
      (s.iters : Int) = ⌈((5 : Int) : ℚ) / ((2 : Int) : ℚ)⌉ ∧
      s.w.opsDone = 2 * ⌈((5 : Int) : ℚ) / ((2 : Int) : ℚ)⌉ ∧
      5 ≤ s.w.opsDone ∧ s.w.opsDone < 5 + 2 ∧ s.issued = s.w.opsDone :=
  run_iterations quietEnv (sampleWorker "step" true 5 2 1000 4 (GoFloat.fin 0)) initialNoise
    5 2 9 (by decide) (Or.inr ⟨rfl, rfl, by decide⟩) (by decide) rfl rfl (fun _ => rfl)
    (fun _ => rfl)
    (fun od i g0 => by
      refine ⟨wrap64 ((3 - quietEnv.elapsedMin i % 4 * 3 / 4) * 1000), g0, ?_⟩
      have hg : (sampleWorker "step" true 5 2 1000 4 (GoFloat.fin 0)).p.normalDataInTime
          = true := rfl
      rw [if_pos hg]
      exact ctlPeriod_step _ _ _ _ g0 rfl (le_of_eq rfl) (show (0 : Int) < 4 by decide)
        (show (4 : Int) < 2 ^ 61 by decide))
    (by rw [ceil_div_eq 5 2 (by decide)]; decide)


end GoYcsb
